import Mathlib

/-!
Shallow embedding of the vermock mock framework core (call.go, delegate.go,
helpers.go, the registry/options file and the ordering file), together with
proofs of the spec claims about it.

Go's reflection-based value universe is modelled by `GoType`/`GoVal`; a
registered delegate function (`reflect.Value` of kind `Func`) is modelled by
`GoFunc`, carrying its parameter shape, variadicity and (opaque) results.
`testing.TB` failure reports (`t.Error`/`t.Errorf`) and invocations are
modelled as `Event`s emitted by the dispatch functions.  Panics are modelled
as `Except.error`.
-/

set_option linter.unusedVariables false

namespace Vermock

/-- Model of the Go types the core inspects: the `error` interface, the empty
interface, the named `CallCount` type, the `testing.TB` reporter type, slice
types, and other opaque types. -/
inductive GoType where
  | tInt
  | tBool
  | tString
  | tErr
  | tAny
  | tCC
  | tTB
  | tSlice (elem : GoType)
  | tNamed (n : Nat)
deriving DecidableEq

/-- Model of `typ.Implements(errType)`: only the `error` interface type
implements `error` in this universe (`any` does not). -/
def GoType.implementsError : GoType → Bool
  | .tErr => true
  | _ => false

/-- Model of `reflect.Type.AssignableTo`: identical types, or assignment to
the empty interface. -/
def GoType.assignableTo (a b : GoType) : Bool :=
  a == b || b == GoType.tAny

/-- Model of `reflect.TypeOf(err).ConvertibleTo(t2)` for a concrete error
value: convertible exactly to the interfaces it implements. -/
def errConvertibleTo (b : GoType) : Bool :=
  b == GoType.tErr || b == GoType.tAny

/-- Model of a `reflect.Value`: a zero value of some type, an error value
(`errors.New`/`fmt.Errorf` result), a `CallCount`, the reporter, a non-zero
value of an opaque type, or a non-nil slice (elements are opaque tags). -/
inductive GoVal where
  | zeroOf (t : GoType)
  | errV (msg : String)
  | ccV (n : Nat)
  | tbV
  | prim (t : GoType) (tag : Nat)
  | sliceV (elem : GoType) (tags : List Nat)
deriving DecidableEq

/-- Model of `reflect.Value.Type`. -/
def GoVal.typeOf : GoVal → GoType
  | .zeroOf t => t
  | .errV _ => .tErr
  | .ccV _ => .tCC
  | .tbV => .tTB
  | .prim t _ => t
  | .sliceV e _ => .tSlice e

/-- Model of `reflect.Value.IsZero`. -/
def GoVal.isZero : GoVal → Bool
  | .zeroOf _ => true
  | .ccV n => n == 0
  | _ => false

/-- Model of a registered delegate function: its identity, declared parameter
types (for a variadic function the last one is a slice type), variadicity and
the results it produces.  Delegate bodies are opaque to the core, so results
are modelled as a fixed list; the argument values actually received are
recorded in the `invoke` event. -/
structure GoFunc where
  fnId : Nat
  params : List GoType
  variadic : Bool
  results : List GoVal
deriving DecidableEq

/-- Argument compatibility check performed by `reflect.Value.Call`: arities
must agree and each argument must be assignable to its parameter type. -/
def checkArgs : List GoVal → List GoType → Bool
  | [], [] => true
  | v :: vs, t :: ts => v.typeOf.assignableTo t && checkArgs vs ts
  | _, _ => false

/-- Model of `fn.Call(in)` on a non-variadic call: a type or arity mismatch
is a reflection panic, otherwise the callee receives the arguments
positionally. -/
def callPositional (fn : GoFunc) (args : List GoVal) : Except String (List GoVal) :=
  if checkArgs args fn.params then Except.ok args
  else Except.error "reflect: Call with wrong argument shape"

/-- Model of `fn.CallSlice(in)`: the function must be variadic with a slice
as final parameter, the final supplied argument must be a slice of the
variadic element type (or a nil slice), and it is spread into the callee's
variadic tail. -/
def callSlice (fn : GoFunc) (args : List GoVal) : Except String (List GoVal) :=
  match fn.params.getLast? with
  | some (GoType.tSlice e) =>
    if args.length == fn.params.length then
      if checkArgs args.dropLast fn.params.dropLast then
        match args.getLast? with
        | some (GoVal.sliceV e2 tags) =>
          if e2 == e then Except.ok (args.dropLast ++ tags.map (GoVal.prim e))
          else Except.error "reflect: CallSlice with wrong slice type"
        | some (GoVal.zeroOf (GoType.tSlice e2)) =>
          if e2 == e then Except.ok args.dropLast
          else Except.error "reflect: CallSlice with wrong slice type"
        | _ => Except.error "reflect: CallSlice final argument is not a slice"
      else Except.error "reflect: CallSlice with wrong argument shape"
    else Except.error "reflect: CallSlice with wrong argument count"
  | _ => Except.error "reflect: CallSlice of non-variadic function"

/-- Model of `Value.Call` (call.go): when the declared parameter count is
exactly one more than the supplied argument count the reporter is prepended;
a variadic function is invoked through `CallSlice`, any other through `Call`.
The returned list is the argument list the delegate function receives (with
a variadic tail spread).  `Expect`/`ExpectMany` reject non-functions at
registration, so the wrapped value is always of kind `Func` here. -/
def valueCall (fn : GoFunc) (inArgs : List GoVal) : Except String (List GoVal) :=
  let in2 := if fn.params.length == inArgs.length + 1 then GoVal.tbV :: inArgs else inArgs
  if fn.variadic then callSlice fn in2 else callPositional fn in2

/-- Model of the condition in `multi.Call`: the first parameter, or the
second, has type `CallCount`. -/
def wantsCallCount (fn : GoFunc) : Bool :=
  match fn.params with
  | [] => false
  | t0 :: rest =>
    t0 == GoType.tCC ||
      (match rest with
       | [] => false
       | t1 :: _ => t1 == GoType.tCC)

/-- Model of `multi.Call` (call.go): prepend the call count when a leading
parameter slot has type `CallCount`, then defer to `Value.Call` (which may
further prepend the reporter, so the count ends up after it). -/
def multiCall (fn : GoFunc) (count : Nat) (inArgs : List GoVal) : Except String (List GoVal) :=
  let in2 := if wantsCallCount fn then GoVal.ccV count :: inArgs else inArgs
  valueCall fn in2

/-- Ordering provenance carried by the mock and stamped onto each Callable
(the `ordered` struct). -/
structure Ordered where
  inOrder : Bool
  ordinal : Nat
deriving DecidableEq

/-- Model of a registered Callable: a single-invocation `Value` or a
multi-invocation `multi`, each wrapping a function and its ordering
provenance. -/
inductive Callable where
  | value (fn : GoFunc) (ord : Ordered)
  | multi (fn : GoFunc) (ord : Ordered)
deriving DecidableEq

/-- Underlying function of a Callable. -/
def Callable.fn : Callable → GoFunc
  | .value f _ => f
  | .multi f _ => f

/-- Stamped ordering provenance of a Callable. -/
def Callable.ord : Callable → Ordered
  | .value _ o => o
  | .multi _ o => o

/-- Model of the `MultiCallable` type assertion: only `multi` implements it
(and its `MultiCallable()` returns true). -/
def Callable.isMulti : Callable → Bool
  | .value _ _ => false
  | .multi _ _ => true

/-- Model of `Callable.Call`: `Value.Call` ignores the count, `multi.Call`
may prepend it. -/
def Callable.call (c : Callable) (count : Nat) (inArgs : List GoVal) : Except String (List GoVal) :=
  match c with
  | .value f _ => valueCall f inArgs
  | .multi f _ => multiCall f count inArgs

/-- Model of `Callables.MultiCallable`: true when the last Callable in the
slice is a `multi`. -/
def multiCallableB (cs : List Callable) : Bool :=
  match cs.getLast? with
  | some c => c.isMulti
  | none => false

/-- Model of `Callables.Call`: invoke the Callable at the index, or the last
one when the index is out of range and the last one is multi-invocation;
panic otherwise.  Returns the invoked Callable and the arguments it
received. -/
def callablesCall (cs : List Callable) (index : Nat) (inArgs : List GoVal) :
    Except String (Callable × List GoVal) :=
  if index < cs.length then
    match cs.get? index with
    | some c => (c.call index inArgs).map (fun recv => (c, recv))
    | none => Except.error "Callables.Call: index out of range"
  else if multiCallableB cs then
    match cs.get? (cs.length - 1) with
    | some c => (c.call index inArgs).map (fun recv => (c, recv))
    | none => Except.error "Callables.Call: index out of range"
  else
    Except.error ("Callables.Call: index out of range [" ++ toString index ++ "] with length " ++ toString cs.length)

/-- Model of a `Delegate`: the registered Callables and the call counter
(the lock is irrelevant for the sequential semantics). -/
structure Delegate where
  callables : List Callable
  callCount : Nat
deriving DecidableEq

/-- Selection performed by `CallDelegate` for the ordering check: the
Callable at `callCount`, or the last one once the queue is exhausted. -/
def Delegate.selected (d : Delegate) : Option Callable :=
  if d.callCount < d.callables.length then d.callables.get? d.callCount
  else d.callables.get? (d.callables.length - 1)

/-- Model of a mock: its name-to-Delegate map (as an association list) and
its `ordered` state (configuration-time in-order flag and the monotonic
ordinal). -/
structure Mock where
  delegates : List (String × Delegate)
  inOrder : Bool
  ordinal : Nat
deriving DecidableEq

/-- Lookup of a Delegate by operation name (Go map read). -/
def lookupDelegate (m : Mock) (name : String) : Option Delegate :=
  (m.delegates.find? (fun p => p.1 == name)).map Prod.snd

/-- Replace the first binding of `name`, or append a new one (Go map write). -/
def updateAssoc : List (String × Delegate) → String → Delegate → List (String × Delegate)
  | [], n, d => [(n, d)]
  | (k, v) :: rest, n, d =>
    if k == n then (n, d) :: rest else (k, v) :: updateAssoc rest n d

/-- Store a Delegate under a name. -/
def setDelegate (m : Mock) (name : String) (d : Delegate) : Mock :=
  { m with delegates := updateAssoc m.delegates name d }

/-- Model of `delegateByName`: retrieve the named Delegate or create an empty
one. -/
def delegateByName (m : Mock) (name : String) : Delegate × Mock :=
  match lookupDelegate m name with
  | some d => (d, m)
  | none => (⟨[], 0⟩, { m with delegates := m.delegates ++ [(name, ⟨[], 0⟩)] })

/-- Observable actions of the dispatch engine: the two `t.Error` call sites
of `CallDelegate`, its `t.Logf` call, and the invocation of a delegate
function (with the call count passed to `Callables.Call` and the argument
list the function received). -/
inductive Event where
  | unexpectedCall (name : String)
  | outOfOrder (name : String) (expected got : Nat)
  | logCall (name : String) (count ordinal : Nat)
  | invoke (fnId : Nat) (count : Nat) (received : List GoVal)
deriving DecidableEq

/-- Rendered reporter message of an error event, following the Go format
strings. -/
def Event.message : Event → String
  | .unexpectedCall n => "unexpected call to " ++ n
  | .outOfOrder n e g =>
    "out of order call to " ++ n ++ ": expected " ++ toString e ++ ", got " ++ toString g
  | .logCall n c o => "call to " ++ n ++ ": " ++ toString c ++ "/" ++ toString o
  | .invoke _ _ _ => ""

/-- Synthesized results of an overflow call: one zero value per declared
result type, the last one replaced by an error value when the last declared
type implements `error` (CallDelegate, failure branch). -/
def synthOuts (outTypes : List GoType) (msg : String) : List GoVal :=
  let outs := outTypes.map GoVal.zeroOf
  match outTypes.getLast? with
  | some t =>
    if t.implementsError then outs.set (outTypes.length - 1) (GoVal.errV msg) else outs
  | none => outs

/-- Model of `CallDelegate` (call.go): resolve the Delegate, synthesize a
failure when the queue is exhausted with no multi-invocation tail, otherwise
run the ordering check (`fn, ok = ….(Value)` yields a zero `Value` with
empty provenance for a `multi`), log, invoke through `Callables.Call`, and
increment the call counter. -/
def callDelegate (m : Mock) (name : String) (outTypes : List GoType) (inArgs : List GoVal) :
    Except String (List GoVal × List Event × Mock) :=
  let p := delegateByName m name
  let d := p.1
  let m1 := p.2
  if d.callables.length ≤ d.callCount ∧ multiCallableB d.callables = false then
    let msg := "unexpected call to " ++ name
    Except.ok (synthOuts outTypes msg, [Event.unexpectedCall name], m1)
  else
    match d.selected with
    | none => Except.error "CallDelegate: index out of range"
    | some sel =>
      let fnOrd : Ordered :=
        match sel with
        | .value _ o => o
        | .multi _ _ => ⟨false, 0⟩
      let okV : Bool :=
        match sel with
        | .value _ _ => true
        | .multi _ _ => false
      let ord1 : Nat := if fnOrd.inOrder then m1.ordinal + 1 else m1.ordinal
      let evs1 : List Event :=
        if okV = true ∧ fnOrd.ordinal ≠ ord1 then [Event.outOfOrder name fnOrd.ordinal ord1]
        else []
      match callablesCall d.callables d.callCount inArgs with
      | .error e => Except.error e
      | .ok (c, recv) =>
        Except.ok (c.fn.results,
          evs1 ++ [Event.logCall name d.callCount ord1, Event.invoke c.fn.fnId d.callCount recv],
          setDelegate { m1 with ordinal := ord1 } name { d with callCount := d.callCount + 1 })

instance {ε α : Type} [DecidableEq ε] [DecidableEq α] : DecidableEq (Except ε α) := fun a b =>
  match a, b with
  | .ok x, .ok y =>
    if h : x = y then Decidable.isTrue (by rw [h])
    else Decidable.isFalse (fun hc => by cases hc; exact h rfl)
  | .error x, .error y =>
    if h : x = y then Decidable.isTrue (by rw [h])
    else Decidable.isFalse (fun hc => by cases hc; exact h rfl)
  | .ok _, .error _ => Decidable.isFalse (fun hc => by cases hc)
  | .error _, .ok _ => Decidable.isFalse (fun hc => by cases hc)

/-- Mock ordinal after the ordering step of `CallDelegate` for the selected
Callable: the type assertion `fn, ok = ….(Value)` leaves a zero `Value` (with
a cleared in-order flag) for a `multi`, so only a single-invocation Callable
with the in-order flag set increments the ordinal. -/
def stepOrdinal (sel : Callable) (ordinal : Nat) : Nat :=
  match sel with
  | .value _ o => if o.inOrder then ordinal + 1 else ordinal
  | .multi _ _ => ordinal

/-- Ordering-failure reports of `CallDelegate` for the selected Callable and
the stepped ordinal: the comparison runs for every single-invocation `Value`
(`ok` is true exactly then) and never for a `multi`. -/
def ooEvents (name : String) (sel : Callable) (ord1 : Nat) : List Event :=
  match sel with
  | .value _ o => if o.ordinal ≠ ord1 then [Event.outOfOrder name o.ordinal ord1] else []
  | .multi _ _ => []

/-- Formal reading of the universally quantified part of claim C4: a dispatch
whose selected Callable carries no ordering provenance (in-order flag false)
never causes the ordinal to be incremented or compared, hence reports no
ordering failure and leaves the ordinal unchanged. -/
def noProvenanceNeverCompared : Prop :=
  ∀ (m : Mock) (name : String) (outTypes : List GoType) (args : List GoVal)
    (d : Delegate) (sel : Callable) (outs : List GoVal) (evs : List Event) (m' : Mock),
    lookupDelegate m name = some d →
    d.selected = some sel →
    sel.ord.inOrder = false →
    callDelegate m name outTypes args = Except.ok (outs, evs, m') →
    (∀ x y, Event.outOfOrder name x y ∉ evs) ∧ m'.ordinal = m.ordinal

/-- Outcome of the result-marshaling phase of `doCall`: the errors reported
through the mock's reporter, and either the final contents of the output
slots or a panic. -/
structure MarshalResult where
  reported : List String
  outcome : Except String (List GoVal)
deriving DecidableEq

/-- Printable name of a type, standing in for Go's rendering of a dynamic
type by the `%T` verb. -/
def GoType.printed : GoType → String
  | .tInt => "int"
  | .tBool => "bool"
  | .tString => "string"
  | .tErr => "error"
  | .tAny => "interface"
  | .tCC => "vermock.CallCount"
  | .tTB => "testing.TB"
  | .tSlice e => "[]" ++ e.printed
  | .tNamed n => "named" ++ toString n

/-- Loop body of `doCall`: walk results and output slots in parallel; a
zero-valued result leaves the slot at its default, an assignable result is
copied, the first non-assignable non-zero result sets the error and breaks
(later slots stay at their defaults). -/
def marshalAll : List GoVal → List GoType → Option String × List GoVal
  | [], [] => (none, [])
  | r :: rs, t :: ts =>
    if r.isZero then
      let rec1 := marshalAll rs ts
      (rec1.1, GoVal.zeroOf t :: rec1.2)
    else if r.typeOf.assignableTo t then
      let rec1 := marshalAll rs ts
      (rec1.1, r :: rec1.2)
    else
      (some ("unexpected type " ++ r.typeOf.printed ++ " for result parameter *" ++ t.printed),
        GoVal.zeroOf t :: ts.map GoVal.zeroOf)
  | _, ts => (none, ts.map GoVal.zeroOf)

/-- Model of the marshaling phase of `doCall` (call.go): an arity mismatch
between results and output slots sets the error before the loop runs; after
the loop, a pending error is reported and then either converted into the
last output slot or turned into a panic (an empty slot list makes the
`outTypes[last]` access itself panic). -/
def doCallMarshal (results : List GoVal) (outTypes : List GoType) : MarshalResult :=
  let lenErr : Option String :=
    if results.length ≠ outTypes.length then
      some ("unexpected number of results: expected " ++ toString outTypes.length ++ ", got " ++ toString results.length)
    else none
  let loopOut : Option String × List GoVal :=
    match lenErr with
    | some e => (some e, outTypes.map GoVal.zeroOf)
    | none => marshalAll results outTypes
  match loopOut.1 with
  | none => ⟨[], Except.ok loopOut.2⟩
  | some e =>
    match outTypes.getLast? with
    | none => ⟨[e], Except.error "runtime error: index out of range"⟩
    | some t2 =>
      if errConvertibleTo t2 then
        ⟨[e], Except.ok (loopOut.2.set (outTypes.length - 1) (GoVal.errV e))⟩
      else ⟨[e], Except.error e⟩

/-- Model of `doCall`: dispatch through `CallDelegate`, then marshal the raw
results into the output slots. -/
def doCall (m : Mock) (name : String) (outTypes : List GoType) (inArgs : List GoVal) :
    Except String (List Event × MarshalResult × Mock) :=
  match callDelegate m name outTypes inArgs with
  | .error e => Except.error e
  | .ok (results, evs, m1) => Except.ok (evs, doCallMarshal results outTypes, m1)

/-- Configuration options: `Expect`, `ExpectMany`, and the shared body of
`ExpectInOrder`/`ExpectAnyOrder` (`orderedOption`). -/
inductive MockOption where
  | expect (name : String) (fn : GoFunc)
  | expectMany (name : String) (fn : GoFunc)
  | orderedOpt (inOrder : Bool) (opts : List MockOption)

/-- Model of `ExpectInOrder`. -/
def expectInOrder (opts : List MockOption) : MockOption :=
  MockOption.orderedOpt true opts

/-- Model of `ExpectAnyOrder`. -/
def expectAnyOrder (opts : List MockOption) : MockOption :=
  MockOption.orderedOpt false opts

mutual

/-- Model of applying one option to the mock.  `Expect`/`ExpectMany` resolve
the Delegate, increment the ordinal while the in-order flag is set, and
append a Callable stamped with the mock's current `ordered` state;
`orderedOption` saves the in-order flag, sets it, applies the nested options
and restores the saved value on exit. -/
def applyOpt : MockOption → Mock → Mock
  | .expect name fn, m =>
    let p := delegateByName m name
    let d := p.1
    let m1 := p.2
    let ord1 := if m1.inOrder then m1.ordinal + 1 else m1.ordinal
    let m2 := { m1 with ordinal := ord1 }
    setDelegate m2 name { d with callables := d.callables ++ [Callable.value fn ⟨m2.inOrder, ord1⟩] }
  | .expectMany name fn, m =>
    let p := delegateByName m name
    let d := p.1
    let m1 := p.2
    let ord1 := if m1.inOrder then m1.ordinal + 1 else m1.ordinal
    let m2 := { m1 with ordinal := ord1 }
    setDelegate m2 name { d with callables := d.callables ++ [Callable.multi fn ⟨m2.inOrder, ord1⟩] }
  | .orderedOpt b opts, m =>
    let saved := m.inOrder
    let m2 := applyOpts opts { m with inOrder := b }
    { m2 with inOrder := saved }

/-- Apply a list of options in order. -/
def applyOpts : List MockOption → Mock → Mock
  | [], m => m
  | o :: rest, m => applyOpts rest (applyOpt o m)

end

/-- Model of `New`: start from an empty mock, apply the options, then reset
the ordinal to zero. -/
def newMock (opts : List MockOption) : Mock :=
  let m := applyOpts opts { delegates := [], inOrder := false, ordinal := 0 }
  { m with ordinal := 0 }

mutual

/-- True when the option applies no registration while the in-order flag is
set, starting from the given flag value. -/
def noOrderedReg : Bool → MockOption → Bool
  | flag, .expect _ _ => !flag
  | flag, .expectMany _ _ => !flag
  | _, .orderedOpt b opts => noOrderedRegs b opts

/-- List version of `noOrderedReg`. -/
def noOrderedRegs : Bool → List MockOption → Bool
  | _, [] => true
  | flag, o :: rest => noOrderedReg flag o && noOrderedRegs flag rest

end

/-- Message `AssertExpectedCalls` reports for an operation that still owes
calls, by its call count. -/
def assertMsg (name : String) (count : Nat) : String :=
  if count = 0 then "failed to make call to " ++ name
  else if count = 1 then "failed to make call to " ++ name ++ ": only got one call"
  else "failed to make call to " ++ name ++ ": only got " ++ toString count ++ " calls"

/-- Failure entry `AssertExpectedCalls` produces for one delegate-map entry:
a report exactly when the queue length exceeds the call count. -/
def assertEntry (p : String × Delegate) : Option (String × String) :=
  if p.2.callCount < p.2.callables.length then some (p.1, assertMsg p.1 p.2.callCount)
  else none

/-- Model of `AssertExpectedCalls` (helpers.go): for every operation whose
queue length exceeds its call count, one reported failure, tagged here with
the operation name. -/
def assertExpectedCalls (m : Mock) : List (String × String) :=
  m.delegates.filterMap assertEntry

/-- Run a sequence of dispatches of the same operation, one per supplied
argument list, collecting the events of each dispatch. -/
def dispatchList (name : String) (outTypes : List GoType) :
    Mock → List (List GoVal) → Except String (List (List Event) × Mock)
  | m, [] => Except.ok ([], m)
  | m, args :: rest =>
    match callDelegate m name outTypes args with
    | .error e => Except.error e
    | .ok (_, evs, m1) =>
      match dispatchList name outTypes m1 rest with
      | .error e => Except.error e
      | .ok (evss, m2) => Except.ok (evs :: evss, m2)

/-- Run a sequence of dispatches of arbitrary operations, collecting all
events. -/
def runCalls : Mock → List (String × List GoType × List GoVal) → Except String (List Event × Mock)
  | m, [] => Except.ok ([], m)
  | m, (n, ts, args) :: rest =>
    match callDelegate m n ts args with
    | .error e => Except.error e
    | .ok (_, evs, m1) =>
      match runCalls m1 rest with
      | .error e => Except.error e
      | .ok (evs2, m2) => Except.ok (evs ++ evs2, m2)

/-- Keys of the delegate map are distinct (a Go map invariant, maintained by
`delegateByName`). -/
def keysNodup (m : Mock) : Prop :=
  (m.delegates.map Prod.fst).Nodup

/-- Every Callable registered on the mock carries cleared ordering provenance
(in-order flag false, expected ordinal zero). -/
def allStampsClear (m : Mock) : Prop :=
  ∀ p ∈ m.delegates, ∀ c ∈ p.2.callables, c.ord = (⟨false, 0⟩ : Ordered)

/-- Per-slot compatibility of raw results with the declared output types:
lengths agree and every non-zero result is assignable to its slot. -/
def marshalOK : List GoVal → List GoType → Bool
  | [], [] => true
  | r :: rs, t :: ts => (r.isZero || r.typeOf.assignableTo t) && marshalOK rs ts
  | _, _ => false

theorem find?_updateAssoc_self (l : List (String × Delegate)) (n : String) (d : Delegate) :
    (updateAssoc l n d).find? (fun p => p.1 == n) = some (n, d) := by
  induction l with
  | nil => simp [updateAssoc]
  | cons hd tl ih =>
    obtain ⟨k, v⟩ := hd
    by_cases h : k = n
    · simp [updateAssoc, h]
    · simp [updateAssoc, h, List.find?_cons, ih]

theorem find?_updateAssoc_ne (l : List (String × Delegate)) {n k : String} (d : Delegate)
    (hk : k ≠ n) :
    (updateAssoc l n d).find? (fun p => p.1 == k) = l.find? (fun p => p.1 == k) := by
  induction l with
  | nil => simp [updateAssoc, (Ne.symm hk)]
  | cons hd tl ih =>
    obtain ⟨k', v⟩ := hd
    by_cases h : k' = n
    · subst h
      simp [updateAssoc, (Ne.symm hk)]
    · simp [updateAssoc, h, List.find?_cons, ih]

theorem lookup_setDelegate_self (m : Mock) (n : String) (d : Delegate) :
    lookupDelegate (setDelegate m n d) n = some d := by
  simp [lookupDelegate, setDelegate, find?_updateAssoc_self]

theorem lookup_setDelegate_ne (m : Mock) {n k : String} (d : Delegate) (hk : k ≠ n) :
    lookupDelegate (setDelegate m n d) k = lookupDelegate m k := by
  simp [lookupDelegate, setDelegate, find?_updateAssoc_ne _ _ hk]

theorem delegateByName_found {m : Mock} {n : String} {d : Delegate}
    (h : lookupDelegate m n = some d) : delegateByName m n = (d, m) := by
  simp [delegateByName, h]

theorem delegateByName_missing {m : Mock} {n : String}
    (h : lookupDelegate m n = none) :
    delegateByName m n = (⟨[], 0⟩, { m with delegates := m.delegates ++ [(n, ⟨[], 0⟩)] }) := by
  simp [delegateByName, h]

theorem mem_updateAssoc {l : List (String × Delegate)} {n : String} {d : Delegate}
    {p : String × Delegate} (hp : p ∈ updateAssoc l n d) : p = (n, d) ∨ p ∈ l := by
  induction l with
  | nil => simpa [updateAssoc] using hp
  | cons hd tl ih =>
    obtain ⟨k, v⟩ := hd
    by_cases h : k = n
    · simp [updateAssoc, h] at hp
      rcases hp with h1 | h1
      · exact Or.inl h1
      · exact Or.inr (List.mem_cons_of_mem _ h1)
    · simp [updateAssoc, h] at hp
      rcases hp with h1 | h1
      · exact Or.inr (by simp [h1])
      · rcases ih h1 with h2 | h2
        · exact Or.inl h2
        · exact Or.inr (List.mem_cons_of_mem _ h2)

theorem synthOuts_length (outTypes : List GoType) (msg : String) :
    (synthOuts outTypes msg).length = outTypes.length := by
  unfold synthOuts
  cases h : outTypes.getLast? with
  | none => simp
  | some t => by_cases he : t.implementsError <;> simp [he]

theorem synthOuts_get?_of_lt (outTypes : List GoType) (msg : String) {i : Nat}
    (h : i + 1 < outTypes.length) :
    (synthOuts outTypes msg)[i]? = outTypes[i]?.map GoVal.zeroOf := by
  unfold synthOuts
  have hne : outTypes.length - 1 ≠ i := by omega
  cases hl : outTypes.getLast? with
  | none => simp [List.getElem?_map]
  | some t =>
    by_cases he : t.implementsError
    · simp [he, List.getElem?_set_ne hne, List.getElem?_map]
    · simp [he, List.getElem?_map]

theorem synthOuts_getLast? (outTypes : List GoType) (msg : String) {t : GoType}
    (h : outTypes.getLast? = some t) :
    (synthOuts outTypes msg).getLast? =
      some (if t.implementsError then GoVal.errV msg else GoVal.zeroOf t) := by
  have hlen : 0 < outTypes.length := by
    cases outTypes with
    | nil => simp at h
    | cons a l => simp
  unfold synthOuts
  rw [h]
  dsimp only
  split
  · rename_i he
    rw [List.getLast?_eq_getElem?]
    simp only [List.length_set, List.length_map]
    rw [List.getElem?_set_self (by simp only [List.length_map]; omega)]
  · rename_i he
    rw [List.getLast?_eq_getElem?, List.length_map, List.getElem?_map]
    rw [List.getLast?_eq_getElem?] at h
    simp [h]

theorem applyOpt_inOrder (o : MockOption) (m : Mock) :
    (applyOpt o m).inOrder = m.inOrder := by
  cases o with
  | expect name fn =>
    cases h : lookupDelegate m name <;>
      simp [applyOpt, delegateByName, h, setDelegate]
  | expectMany name fn =>
    cases h : lookupDelegate m name <;>
      simp [applyOpt, delegateByName, h, setDelegate]
  | orderedOpt b opts => simp [applyOpt]

theorem applyOpts_inOrder : ∀ (opts : List MockOption) (m : Mock),
    (applyOpts opts m).inOrder = m.inOrder
  | [], m => rfl
  | o :: rest, m => by
    rw [applyOpts, applyOpts_inOrder rest, applyOpt_inOrder o]

/-- C5: `ExpectInOrder`/`ExpectAnyOrder` (both instances of `orderedOption`)
set the in-order flag only for the duration of their nested registrations and
restore the prior value on exit; consequently, for every starting flag value
and every (arbitrarily nested) composition of configuration options, the flag
after applying the options equals the flag before. -/
theorem c5_ordered_option_restores_flag :
    (∀ (b : Bool) (opts : List MockOption) (m : Mock),
        (applyOpt (MockOption.orderedOpt b opts) m).inOrder = m.inOrder) ∧
    (∀ (opts : List MockOption) (m : Mock), (applyOpts opts m).inOrder = m.inOrder) :=
  ⟨fun _ opts m => applyOpt_inOrder _ m, fun opts m => applyOpts_inOrder opts m⟩

theorem lookup_mem {m : Mock} {n : String} {d : Delegate}
    (h : lookupDelegate m n = some d) : ∃ k, (k, d) ∈ m.delegates := by
  unfold lookupDelegate at h
  cases hf : m.delegates.find? (fun p => p.1 == n) with
  | none => rw [hf] at h; simp at h
  | some p =>
    rw [hf] at h
    simp at h
    refine ⟨p.1, ?_⟩
    have hp : p = (p.1, d) := by
      rw [← h]
    rw [← hp]
    exact List.mem_of_find?_eq_some hf

theorem multiCallableB_ne_nil {cs : List Callable} (h : multiCallableB cs = true) :
    cs ≠ [] := by
  intro hnil
  subst hnil
  simp [multiCallableB] at h

theorem selected_of_overflow {d : Delegate} (hov : d.callables.length ≤ d.callCount)
    (hm : multiCallableB d.callables = true) :
    d.selected = d.callables.getLast? := by
  unfold Delegate.selected
  rw [if_neg (by omega)]
  rw [List.getLast?_eq_getElem?, List.get?_eq_getElem?]

theorem selected_of_lt {d : Delegate} (h : d.callCount < d.callables.length) :
    d.selected = d.callables.get? d.callCount := by
  unfold Delegate.selected
  rw [if_pos h]

theorem callablesCall_selected {d : Delegate} {sel : Callable}
    (hng : ¬(d.callables.length ≤ d.callCount ∧ multiCallableB d.callables = false))
    (hsel : d.selected = some sel) (args : List GoVal) :
    callablesCall d.callables d.callCount args =
      (sel.call d.callCount args).map (fun recv => (sel, recv)) := by
  by_cases h : d.callCount < d.callables.length
  · rw [selected_of_lt h] at hsel
    unfold callablesCall
    rw [if_pos h, hsel]
  · have hm : multiCallableB d.callables = true := by
      by_contra hm
      exact hng ⟨by omega, by simpa using hm⟩
    rw [selected_of_overflow (by omega) hm] at hsel
    unfold callablesCall
    rw [if_neg h, if_pos hm]
    rw [List.getLast?_eq_getElem?] at hsel
    rw [List.get?_eq_getElem?, hsel]

theorem callDelegate_invoke {m : Mock} {name : String} {d : Delegate} {sel : Callable}
    (outTypes : List GoType) (args : List GoVal)
    (hl : lookupDelegate m name = some d)
    (hng : ¬(d.callables.length ≤ d.callCount ∧ multiCallableB d.callables = false))
    (hsel : d.selected = some sel) :
    callDelegate m name outTypes args =
      match callablesCall d.callables d.callCount args with
      | .error e => Except.error e
      | .ok (c, recv) =>
        Except.ok (c.fn.results,
          ooEvents name sel (stepOrdinal sel m.ordinal) ++
            [Event.logCall name d.callCount (stepOrdinal sel m.ordinal),
             Event.invoke c.fn.fnId d.callCount recv],
          setDelegate { m with ordinal := stepOrdinal sel m.ordinal } name
            { d with callCount := d.callCount + 1 }) := by
  unfold callDelegate
  rw [delegateByName_found hl]
  simp only [if_neg hng, hsel]
  cases sel with
  | value f o =>
    simp only [stepOrdinal, ooEvents]
    cases hc : callablesCall d.callables d.callCount args with
    | error e => rfl
    | ok p => simp
  | multi f o =>
    simp only [stepOrdinal, ooEvents]
    cases hc : callablesCall d.callables d.callCount args with
    | error e => rfl
    | ok p => simp

theorem callDelegate_invoke_ok {m : Mock} {name : String} {d : Delegate} {sel : Callable}
    {outTypes : List GoType} {args : List GoVal} {recv : List GoVal}
    (hl : lookupDelegate m name = some d)
    (hng : ¬(d.callables.length ≤ d.callCount ∧ multiCallableB d.callables = false))
    (hsel : d.selected = some sel)
    (hcall : sel.call d.callCount args = Except.ok recv) :
    callDelegate m name outTypes args =
      Except.ok (sel.fn.results,
        ooEvents name sel (stepOrdinal sel m.ordinal) ++
          [Event.logCall name d.callCount (stepOrdinal sel m.ordinal),
           Event.invoke sel.fn.fnId d.callCount recv],
        setDelegate { m with ordinal := stepOrdinal sel m.ordinal } name
          { d with callCount := d.callCount + 1 }) := by
  rw [callDelegate_invoke outTypes args hl hng hsel,
    callablesCall_selected hng hsel args, hcall]
  rfl

theorem callDelegate_ok_inversion {m : Mock} {name : String} {d : Delegate} {sel : Callable}
    {outTypes : List GoType} {args : List GoVal}
    {outs : List GoVal} {evs : List Event} {m' : Mock}
    (hl : lookupDelegate m name = some d)
    (hng : ¬(d.callables.length ≤ d.callCount ∧ multiCallableB d.callables = false))
    (hsel : d.selected = some sel)
    (hok : callDelegate m name outTypes args = Except.ok (outs, evs, m')) :
    ∃ recv,
      sel.call d.callCount args = Except.ok recv ∧
      outs = sel.fn.results ∧
      evs = ooEvents name sel (stepOrdinal sel m.ordinal) ++
        [Event.logCall name d.callCount (stepOrdinal sel m.ordinal),
         Event.invoke sel.fn.fnId d.callCount recv] ∧
      m' = setDelegate { m with ordinal := stepOrdinal sel m.ordinal } name
        { d with callCount := d.callCount + 1 } := by
  rw [callDelegate_invoke outTypes args hl hng hsel,
    callablesCall_selected hng hsel args] at hok
  cases hc : sel.call d.callCount args with
  | error e => rw [hc] at hok; simp [Except.map] at hok
  | ok recv =>
    rw [hc] at hok
    simp [Except.map] at hok
    exact ⟨recv, rfl, hok.1.symm, hok.2.1.symm, hok.2.2.symm⟩

/-- C2: a dispatch finding the queue exhausted with no multi-invocation tail
reports "unexpected call to name", returns one zero value per declared result
type with the last slot replaced by an error value exactly when the last
declared type implements `error`, and leaves the mock (in particular the call
counter) unchanged, so the same happens on every further excess call. -/
theorem c2_unexpected_call_synthesizes_failure (m : Mock) (name : String)
    (outTypes : List GoType) (args : List GoVal) (d : Delegate)
    (hl : lookupDelegate m name = some d)
    (hov : d.callables.length ≤ d.callCount)
    (hnm : multiCallableB d.callables = false) :
    ∃ outs,
      callDelegate m name outTypes args = Except.ok (outs, [Event.unexpectedCall name], m) ∧
      (Event.unexpectedCall name).message = "unexpected call to " ++ name ∧
      outs.length = outTypes.length ∧
      (∀ i, i + 1 < outTypes.length → outs[i]? = outTypes[i]?.map GoVal.zeroOf) ∧
      (∀ t, outTypes.getLast? = some t →
        outs.getLast? =
          some (if t.implementsError then GoVal.errV ("unexpected call to " ++ name)
                else GoVal.zeroOf t)) ∧
      lookupDelegate m name = some d := by
  refine ⟨synthOuts outTypes ("unexpected call to " ++ name), ?_, rfl, synthOuts_length _ _,
    fun i hi => synthOuts_get?_of_lt _ _ hi, fun t ht => synthOuts_getLast? _ _ ht, hl⟩
  unfold callDelegate
  rw [delegateByName_found hl]
  simp only [if_pos (And.intro hov hnm)]

theorem delegateByName_counts {m : Mock} {n : String}
    (inv : ∀ p ∈ m.delegates, p.2.callCount = 0) :
    (delegateByName m n).1.callCount = 0 ∧
      ∀ p ∈ (delegateByName m n).2.delegates, p.2.callCount = 0 := by
  cases h : lookupDelegate m n with
  | none =>
    rw [delegateByName_missing h]
    constructor
    · rfl
    · intro p hp
      rcases List.mem_append.mp hp with h1 | h1
      · exact inv p h1
      · simp at h1
        rw [h1]
  | some d =>
    rw [delegateByName_found h]
    obtain ⟨k, hk⟩ := lookup_mem h
    exact ⟨inv (k, d) hk, inv⟩

mutual

theorem applyOpt_callCount : ∀ (o : MockOption) (m : Mock),
    (∀ p ∈ m.delegates, p.2.callCount = 0) →
    ∀ p ∈ (applyOpt o m).delegates, p.2.callCount = 0
  | .expect name fn, m, inv, p, hp => by
    rw [applyOpt] at hp
    obtain ⟨hc, hinv⟩ := delegateByName_counts (n := name) inv
    simp only [setDelegate] at hp
    rcases mem_updateAssoc hp with h1 | h1
    · rw [h1]
      exact hc
    · exact hinv p h1
  | .expectMany name fn, m, inv, p, hp => by
    rw [applyOpt] at hp
    obtain ⟨hc, hinv⟩ := delegateByName_counts (n := name) inv
    simp only [setDelegate] at hp
    rcases mem_updateAssoc hp with h1 | h1
    · rw [h1]
      exact hc
    · exact hinv p h1
  | .orderedOpt b opts, m, inv, p, hp => by
    rw [applyOpt] at hp
    exact applyOpts_callCount opts { m with inOrder := b } inv p hp

theorem applyOpts_callCount : ∀ (opts : List MockOption) (m : Mock),
    (∀ p ∈ m.delegates, p.2.callCount = 0) →
    ∀ p ∈ (applyOpts opts m).delegates, p.2.callCount = 0
  | [], m, inv => inv
  | o :: rest, m, inv =>
    applyOpts_callCount rest (applyOpt o m) (applyOpt_callCount o m inv)

end

theorem newMock_callCount {opts : List MockOption} {name : String} {d : Delegate}
    (h : lookupDelegate (newMock opts) name = some d) : d.callCount = 0 := by
  obtain ⟨k, hk⟩ := lookup_mem h
  have : ∀ p ∈ (newMock opts).delegates, p.2.callCount = 0 := by
    intro p hp
    have hp2 : p ∈ (applyOpts opts { delegates := [], inOrder := false, ordinal := 0 }).delegates := hp
    exact applyOpts_callCount opts _ (by intro q hq; simp at hq) p hp2
  exact this (k, d) hk

/-- C3: when the last registered Callable of an operation is
multi-invocation, every dispatch whose call count is at or beyond the queue
length invokes that last Callable and passes it the current call counter,
which then increases by exactly one; the counter starts at zero on a freshly
configured mock, so the count passed equals the number of prior dispatches of
the operation. -/
theorem c3_multi_tail_reuse_and_count :
    (∀ (m : Mock) (name : String) (outTypes : List GoType) (args : List GoVal)
        (d : Delegate) (outs : List GoVal) (evs : List Event) (m' : Mock),
        lookupDelegate m name = some d →
        multiCallableB d.callables = true →
        d.callables.length ≤ d.callCount →
        callDelegate m name outTypes args = Except.ok (outs, evs, m') →
        ∃ cl recv, d.callables.getLast? = some cl ∧
          Event.invoke cl.fn.fnId d.callCount recv ∈ evs ∧
          lookupDelegate m' name = some ⟨d.callables, d.callCount + 1⟩) ∧
    (∀ (opts : List MockOption) (name : String) (d : Delegate),
        lookupDelegate (newMock opts) name = some d → d.callCount = 0) := by
  constructor
  · intro m name outTypes args d outs evs m' hl hm hov hok
    have hng : ¬(d.callables.length ≤ d.callCount ∧ multiCallableB d.callables = false) := by
      intro hc
      rw [hm] at hc
      exact absurd hc.2 (by simp)
    have hsel : d.selected = some (d.callables.getLast (multiCallableB_ne_nil hm)) := by
      rw [selected_of_overflow hov hm, List.getLast?_eq_getLast _ (multiCallableB_ne_nil hm)]
    obtain ⟨recv, hcall, houts, hevs, hm'⟩ := callDelegate_ok_inversion hl hng hsel hok
    refine ⟨d.callables.getLast (multiCallableB_ne_nil hm), recv,
      (List.getLast?_eq_getLast _ (multiCallableB_ne_nil hm)), ?_, ?_⟩
    · rw [hevs]
      simp
    · rw [hm']
      exact lookup_setDelegate_self _ _ _
  · intro opts name d h
    exact newMock_callCount h

theorem mem_keys_of_lookup {m : Mock} {n : String} {d : Delegate}
    (h : lookupDelegate m n = some d) : n ∈ m.delegates.map Prod.fst := by
  unfold lookupDelegate at h
  cases hf : m.delegates.find? (fun p => p.1 == n) with
  | none => rw [hf] at h; simp at h
  | some p =>
    have hp := List.find?_some hf
    simp at hp
    have hm := List.mem_map_of_mem Prod.fst (List.mem_of_find?_eq_some hf)
    rw [hp] at hm
    exact hm

theorem map_fst_updateAssoc {l : List (String × Delegate)} {n : String} (d : Delegate)
    (h : n ∈ l.map Prod.fst) :
    (updateAssoc l n d).map Prod.fst = l.map Prod.fst := by
  induction l with
  | nil => simp at h
  | cons hd tl ih =>
    obtain ⟨k, v⟩ := hd
    by_cases hk : k = n
    · simp [updateAssoc, hk]
    · simp only [List.map_cons, List.mem_cons] at h
      rcases h with h | h
      · exact absurd h.symm hk
      · simp [updateAssoc, hk, ih h]

theorem map_fst_setDelegate {m : Mock} {n : String} (d : Delegate)
    (h : n ∈ m.delegates.map Prod.fst) :
    (setDelegate m n d).delegates.map Prod.fst = m.delegates.map Prod.fst :=
  map_fst_updateAssoc d h

theorem mem_keys_of_mem_assert {l : List (String × Delegate)} {n : String} {s : String}
    (h : (n, s) ∈ l.filterMap assertEntry) : n ∈ l.map Prod.fst := by
  obtain ⟨p, hp, he⟩ := List.mem_filterMap.mp h
  unfold assertEntry at he
  by_cases hc : p.2.callCount < p.2.callables.length
  · rw [if_pos hc] at he
    simp at he
    rw [← he.1]
    exact List.mem_map_of_mem Prod.fst hp
  · rw [if_neg hc] at he
    simp at he

theorem assert_mem_iff_list :
    ∀ (l : List (String × Delegate)), (l.map Prod.fst).Nodup → ∀ (name msg : String),
      ((name, msg) ∈ l.filterMap assertEntry ↔
        ∃ d, (l.find? (fun p => p.1 == name)).map Prod.snd = some d ∧
          d.callCount < d.callables.length ∧ msg = assertMsg name d.callCount)
  | [], _, name, msg => by simp
  | (k, v) :: tl, hnd, name, msg => by
    rw [List.map_cons, List.nodup_cons] at hnd
    by_cases hk : k = name
    · subst hk
      constructor
      · intro h
        rw [List.filterMap_cons] at h
        cases he : assertEntry (k, v) with
        | none =>
          rw [he] at h
          exact absurd (mem_keys_of_mem_assert h) hnd.1
        | some q =>
          rw [he] at h
          rcases List.mem_cons.mp h with h1 | h1
          · unfold assertEntry at he
            by_cases hc : v.callCount < v.callables.length
            · rw [if_pos hc] at he
              simp at he
              refine ⟨v, by simp [List.find?_cons], hc, ?_⟩
              rw [← he] at h1
              have := congrArg Prod.snd h1
              simpa using this
            · rw [if_neg hc] at he
              simp at he
          · exact absurd (mem_keys_of_mem_assert h1) hnd.1
      · rintro ⟨d, hld, hc, hmsg⟩
        rw [List.find?_cons] at hld
        simp at hld
        subst hld
        rw [List.filterMap_cons]
        have he : assertEntry (k, v) = some (k, assertMsg k v.callCount) := by
          unfold assertEntry
          rw [if_pos hc]
        rw [he]
        subst hmsg
        exact List.mem_cons_self _ _
    · rw [List.filterMap_cons, List.find?_cons]
      have hkb : ((k, v).1 == name) = false := by
        simp [hk]
      rw [hkb]
      cases he : assertEntry (k, v) with
      | none => exact assert_mem_iff_list tl hnd.2 name msg
      | some q =>
        have hq1 : q.1 = k := by
          unfold assertEntry at he
          by_cases hc : v.callCount < v.callables.length
          · rw [if_pos hc] at he
            simp at he
            rw [← he]
          · rw [if_neg hc] at he
            simp at he
        constructor
        · intro h
          rcases List.mem_cons.mp h with h1 | h1
          · have hne : name = k := by
              have := congrArg Prod.fst h1
              simp at this
              rw [this, hq1]
            exact absurd hne.symm hk
          · exact (assert_mem_iff_list tl hnd.2 name msg).mp h1
        · intro h
          exact List.mem_cons_of_mem _ ((assert_mem_iff_list tl hnd.2 name msg).mpr h)

theorem assert_mem_iff {m : Mock} (hnd : keysNodup m) (name : String) (msg : String) :
    (name, msg) ∈ assertExpectedCalls m ↔
      ∃ d, lookupDelegate m name = some d ∧ d.callCount < d.callables.length ∧
        msg = assertMsg name d.callCount :=
  assert_mem_iff_list m.delegates hnd name msg

theorem callDelegate_step_lt {m : Mock} {name : String} {d : Delegate}
    {outTypes : List GoType} {args : List GoVal}
    {outs : List GoVal} {evs : List Event} {m' : Mock}
    (hl : lookupDelegate m name = some d)
    (hlt : d.callCount < d.callables.length)
    (hok : callDelegate m name outTypes args = Except.ok (outs, evs, m')) :
    ∃ c recv, d.callables[d.callCount]? = some c ∧
      Event.invoke c.fn.fnId d.callCount recv ∈ evs ∧
      m' = setDelegate { m with ordinal := stepOrdinal c m.ordinal } name
        ⟨d.callables, d.callCount + 1⟩ := by
  have hng : ¬(d.callables.length ≤ d.callCount ∧ multiCallableB d.callables = false) := by
    intro hc
    omega
  have hget : d.callables[d.callCount]? = some (d.callables.get ⟨d.callCount, hlt⟩) := by
    rw [List.getElem?_eq_getElem hlt]
    rfl
  have hsel : d.selected = some (d.callables.get ⟨d.callCount, hlt⟩) := by
    rw [selected_of_lt hlt, List.get?_eq_getElem?, hget]
  obtain ⟨recv, hcall, houts, hevs, hm'⟩ := callDelegate_ok_inversion hl hng hsel hok
  refine ⟨d.callables.get ⟨d.callCount, hlt⟩, recv, hget, ?_, hm'⟩
  rw [hevs]
  simp

theorem dispatchList_run (name : String) (oT : List GoType) (argss : List (List GoVal))
    (m : Mock) (d : Delegate) (evss : List (List Event)) (m' : Mock)
    (hl : lookupDelegate m name = some d)
    (hb : d.callCount + argss.length ≤ d.callables.length)
    (hrun : dispatchList name oT m argss = Except.ok (evss, m')) :
    evss.length = argss.length ∧
    (∀ k, k < argss.length → ∃ c recv evsk,
        evss[k]? = some evsk ∧
        d.callables[d.callCount + k]? = some c ∧
        Event.invoke c.fn.fnId (d.callCount + k) recv ∈ evsk) ∧
    lookupDelegate m' name = some ⟨d.callables, d.callCount + argss.length⟩ ∧
    m'.delegates.map Prod.fst = m.delegates.map Prod.fst := by
  induction argss generalizing m d evss m' with
  | nil =>
    rw [dispatchList] at hrun
    cases hrun
    refine ⟨rfl, ?_, by simpa using hl, rfl⟩
    intro k hk
    rw [List.length_nil] at hk
    exact absurd hk (Nat.not_lt_zero k)
  | cons args rest ih =>
    rw [dispatchList] at hrun
    cases hcd : callDelegate m name oT args with
    | error e =>
      rw [hcd] at hrun
      simp at hrun
    | ok trip =>
      obtain ⟨outs1, evs1, m1⟩ := trip
      rw [hcd] at hrun
      dsimp only at hrun
      cases hrest : dispatchList name oT m1 rest with
      | error e =>
        rw [hrest] at hrun
        simp at hrun
      | ok pr =>
        obtain ⟨evss', m2⟩ := pr
        rw [hrest] at hrun
        dsimp only at hrun
        have hpair : (evs1 :: evss', m2) = (evss, m') := by
          injection hrun
        have hevss : evs1 :: evss' = evss := congrArg Prod.fst hpair
        have hm2 : m2 = m' := congrArg Prod.snd hpair
        subst hevss
        subst hm2
        have hlt : d.callCount < d.callables.length := by
          simp at hb
          omega
        obtain ⟨c, recv, hget, hinv, hm1⟩ := callDelegate_step_lt hl hlt hcd
        have hl1 : lookupDelegate m1 name = some ⟨d.callables, d.callCount + 1⟩ := by
          rw [hm1]
          exact lookup_setDelegate_self _ _ _
        have hkeys1 : m1.delegates.map Prod.fst = m.delegates.map Prod.fst := by
          rw [hm1]
          exact map_fst_setDelegate _ (mem_keys_of_lookup hl)
        have hb1 : (⟨d.callables, d.callCount + 1⟩ : Delegate).callCount + rest.length ≤
            (⟨d.callables, d.callCount + 1⟩ : Delegate).callables.length := by
          simp at hb ⊢
          omega
        obtain ⟨hlen, hks, hl2, hkeys2⟩ := ih m1 ⟨d.callables, d.callCount + 1⟩ evss' m2 hl1 hb1 hrest
        refine ⟨by simp [hlen], ?_, ?_, hkeys2.trans hkeys1⟩
        · intro k hk
          cases k with
          | zero =>
            refine ⟨c, recv, evs1, by simp, ?_, hinv⟩
            simpa using hget
          | succ j =>
            have hj : j < rest.length := by
              simp at hk
              omega
            obtain ⟨c', recv', evsk, hge, hgc, hiv⟩ := hks j hj
            refine ⟨c', recv', evsk, by simpa using hge, ?_, ?_⟩
            · have harith : d.callCount + (j + 1) = d.callCount + 1 + j := by omega
              rw [harith]
              exact hgc
            · have harith : d.callCount + (j + 1) = d.callCount + 1 + j := by omega
              rw [harith]
              exact hiv
        · have harith : d.callCount + 1 + rest.length = d.callCount + (rest.length + 1) := by
            omega
          rw [harith] at hl2
          simpa using hl2

/-- C1: for an operation whose queue holds only single-invocation delegates
and whose counter starts at zero, dispatching exactly as many times as there
are delegates invokes, on the k-th dispatch, the delegate at registration
position k, and afterwards `AssertExpectedCalls` reports no failure for the
operation. -/
theorem c1_positional_dispatch_then_satisfied (m : Mock) (name : String)
    (outTypes : List GoType) (argss : List (List GoVal)) (d : Delegate)
    (evss : List (List Event)) (m' : Mock)
    (hnd : keysNodup m)
    (hl : lookupDelegate m name = some d)
    (hc0 : d.callCount = 0)
    (hsingle : ∀ c ∈ d.callables, c.isMulti = false)
    (hn : argss.length = d.callables.length)
    (hrun : dispatchList name outTypes m argss = Except.ok (evss, m')) :
    (∀ k, k < d.callables.length → ∃ c recv evsk,
        evss[k]? = some evsk ∧
        d.callables[k]? = some c ∧
        Event.invoke c.fn.fnId k recv ∈ evsk) ∧
    (∀ msg, (name, msg) ∉ assertExpectedCalls m') := by
  have hb : d.callCount + argss.length ≤ d.callables.length := by
    omega
  obtain ⟨hlen, hks, hl', hkeys⟩ := dispatchList_run name outTypes argss m d evss m' hl hb hrun
  constructor
  · intro k hk
    obtain ⟨c, recv, evsk, hge, hgc, hiv⟩ := hks k (by omega)
    rw [hc0] at hgc hiv
    simp at hgc hiv
    exact ⟨c, recv, evsk, hge, hgc, hiv⟩
  · intro msg hmem
    have hnd' : keysNodup m' := by
      unfold keysNodup
      rw [hkeys]
      exact hnd
    obtain ⟨d', hld', howes, _⟩ := (assert_mem_iff hnd' name msg).mp hmem
    rw [hl'] at hld'
    cases hld'
    simp at howes
    omega

/-- C6: `AssertExpectedCalls` reports a failure for an operation exactly when
the delegate queue length exceeds its call count, and the message is
"failed to make call to name" for zero calls, "...: only got one call" for
one call, and "...: only got N calls" otherwise. -/
theorem c6_assert_reports_owed_calls (m : Mock) (name : String) (d : Delegate)
    (hnd : keysNodup m)
    (hl : lookupDelegate m name = some d) :
    ((name, assertMsg name d.callCount) ∈ assertExpectedCalls m ↔
      d.callCount < d.callables.length) ∧
    (∀ msg, (name, msg) ∈ assertExpectedCalls m → msg = assertMsg name d.callCount) ∧
    (d.callCount = 0 → assertMsg name d.callCount = "failed to make call to " ++ name) ∧
    (d.callCount = 1 → assertMsg name d.callCount =
      "failed to make call to " ++ name ++ ": only got one call") ∧
    (2 ≤ d.callCount → assertMsg name d.callCount =
      "failed to make call to " ++ name ++ ": only got " ++ toString d.callCount ++ " calls") := by
  refine ⟨?_, ?_, ?_, ?_, ?_⟩
  · constructor
    · intro h
      obtain ⟨d', hl', hc', _⟩ := (assert_mem_iff hnd name _).mp h
      rw [hl] at hl'
      cases hl'
      exact hc'
    · intro hc
      exact (assert_mem_iff hnd name _).mpr ⟨d, hl, hc, rfl⟩
  · intro msg h
    obtain ⟨d', hl', _, hmsg⟩ := (assert_mem_iff hnd name msg).mp h
    rw [hl] at hl'
    cases hl'
    exact hmsg
  · intro h
    unfold assertMsg
    rw [if_pos h]
  · intro h
    unfold assertMsg
    rw [if_neg (by omega), if_pos h]
  · intro h
    unfold assertMsg
    rw [if_neg (by omega), if_neg (by omega)]

theorem selected_isSome {d : Delegate}
    (hng : ¬(d.callables.length ≤ d.callCount ∧ multiCallableB d.callables = false)) :
    ∃ sel, d.selected = some sel := by
  by_cases h : d.callCount < d.callables.length
  · refine ⟨d.callables.get ⟨d.callCount, h⟩, ?_⟩
    rw [selected_of_lt h, List.get?_eq_getElem?, List.getElem?_eq_getElem h]
    rfl
  · have hm : multiCallableB d.callables = true := by
      by_contra hm
      exact hng ⟨by omega, by simpa using hm⟩
    have hne := multiCallableB_ne_nil hm
    rw [selected_of_overflow (by omega) hm, List.getLast?_eq_getLast _ hne]
    exact ⟨d.callables.getLast hne, rfl⟩

theorem callDelegate_increments {m : Mock} {name : String} {d : Delegate}
    {outTypes : List GoType} {args : List GoVal}
    {outs : List GoVal} {evs : List Event} {m' : Mock}
    (hl : lookupDelegate m name = some d)
    (hng : ¬(d.callables.length ≤ d.callCount ∧ multiCallableB d.callables = false))
    (hok : callDelegate m name outTypes args = Except.ok (outs, evs, m')) :
    lookupDelegate m' name = some ⟨d.callables, d.callCount + 1⟩ := by
  obtain ⟨sel, hsel⟩ := selected_isSome hng
  obtain ⟨recv, _, _, _, hm'⟩ := callDelegate_ok_inversion hl hng hsel hok
  rw [hm']
  exact lookup_setDelegate_self _ _ _

/-- C10: a registration made with `ExpectMany` contributes exactly one
Callable to the operation's queue; for an operation configured by such a
single multi-invocation registration, `AssertExpectedCalls` reports a
missing-call failure exactly when the call count is zero, and every dispatch
(with its multi-invocation tail) increments the count by one, so one dispatch
satisfies the expectation permanently. -/
theorem c10_expectMany_one_callable_permanent :
    (∀ (m : Mock) (name : String) (fn : GoFunc),
        ∃ d1, lookupDelegate (applyOpt (MockOption.expectMany name fn) m) name = some d1 ∧
          d1.callables.length = (delegateByName m name).1.callables.length + 1 ∧
          d1.callables.getLast? = some (Callable.multi fn
            ⟨(delegateByName m name).2.inOrder,
             if (delegateByName m name).2.inOrder then (delegateByName m name).2.ordinal + 1
             else (delegateByName m name).2.ordinal⟩)) ∧
    (∀ (m : Mock) (name : String) (d : Delegate),
        keysNodup m →
        lookupDelegate m name = some d →
        d.callables.map Callable.isMulti = [true] →
        ((∃ msg, (name, msg) ∈ assertExpectedCalls m) ↔ d.callCount = 0)) ∧
    (∀ (m : Mock) (name : String) (outTypes : List GoType) (args : List GoVal)
        (d : Delegate) (outs : List GoVal) (evs : List Event) (m' : Mock),
        lookupDelegate m name = some d →
        multiCallableB d.callables = true →
        callDelegate m name outTypes args = Except.ok (outs, evs, m') →
        lookupDelegate m' name = some ⟨d.callables, d.callCount + 1⟩) := by
  refine ⟨?_, ?_, ?_⟩
  · intro m name fn
    rw [applyOpt]
    refine ⟨_, lookup_setDelegate_self _ _ _, ?_, ?_⟩
    · simp
    · simp
  · intro m name d hnd hl hmono
    have hlen : d.callables.length = 1 := by
      have := congrArg List.length hmono
      simpa using this
    constructor
    · rintro ⟨msg, hmem⟩
      obtain ⟨d', hl', hc', _⟩ := (assert_mem_iff hnd name msg).mp hmem
      rw [hl] at hl'
      cases hl'
      omega
    · intro hc
      exact ⟨assertMsg name d.callCount,
        (assert_mem_iff hnd name _).mpr ⟨d, hl, by omega, rfl⟩⟩
  · intro m name outTypes args d outs evs m' hl hm hok
    have hng : ¬(d.callables.length ≤ d.callCount ∧ multiCallableB d.callables = false) := by
      intro hc
      rw [hm] at hc
      exact absurd hc.2 (by simp)
    exact callDelegate_increments hl hng hok

/-- C4, counterexample: the claim that a Callable without ordering provenance
is never compared against the mock ordinal fails on the code.  Configure
`Expect("B", fB)` followed by `ExpectInOrder(Expect("A", fA))` (so B carries
no provenance) and dispatch A, then B: the dispatch of B reports
"out of order call to B: expected 0, got 1", because `CallDelegate` compares
the stamped ordinal of every single-invocation `Value`, provenance or not.
The mock value used below is exactly the state of that configured mock after
the dispatch of A, as the first `have` derives. -/
theorem c4_counterexample_no_provenance_compared : ¬ noProvenanceNeverCompared := by
  intro h
  have hstate : callDelegate
      (newMock [MockOption.expect "B" ⟨2, [], false, []⟩,
        MockOption.orderedOpt true [MockOption.expect "A" ⟨1, [], false, []⟩]])
      "A" [] [] =
      Except.ok ([], [Event.logCall "A" 0 1, Event.invoke 1 0 []],
        ⟨[("B", ⟨[Callable.value ⟨2, [], false, []⟩ ⟨false, 0⟩], 0⟩),
          ("A", ⟨[Callable.value ⟨1, [], false, []⟩ ⟨true, 1⟩], 1⟩)], false, 1⟩) := by
    decide
  have hc := h
    ⟨[("B", ⟨[Callable.value ⟨2, [], false, []⟩ ⟨false, 0⟩], 0⟩),
      ("A", ⟨[Callable.value ⟨1, [], false, []⟩ ⟨true, 1⟩], 1⟩)], false, 1⟩
    "B" [] []
    ⟨[Callable.value ⟨2, [], false, []⟩ ⟨false, 0⟩], 0⟩
    (Callable.value ⟨2, [], false, []⟩ ⟨false, 0⟩)
    []
    [Event.outOfOrder "B" 0 1, Event.logCall "B" 0 1, Event.invoke 2 0 []]
    ⟨[("B", ⟨[Callable.value ⟨2, [], false, []⟩ ⟨false, 0⟩], 1⟩),
      ("A", ⟨[Callable.value ⟨1, [], false, []⟩ ⟨true, 1⟩], 1⟩)], false, 1⟩
    (by decide) (by decide) (by decide) (by decide)
  exact absurd (List.mem_cons_self _ _) (hc.1 0 1)

/-- C4, amended: at every dispatch that reaches invocation, the mock ordinal
is incremented exactly when the selected Callable is single-invocation with
the in-order flag set; the comparison against the Callable's stamped ordinal
is performed for every single-invocation Callable regardless of provenance
and never for a multi-invocation one; a mismatch is reported non-fatally and
the Callable is still invoked. -/
theorem c4_amended_ordering_check (m : Mock) (name : String)
    (outTypes : List GoType) (args : List GoVal) (d : Delegate) (sel : Callable)
    (outs : List GoVal) (evs : List Event) (m' : Mock)
    (hl : lookupDelegate m name = some d)
    (hng : ¬(d.callables.length ≤ d.callCount ∧ multiCallableB d.callables = false))
    (hsel : d.selected = some sel)
    (hok : callDelegate m name outTypes args = Except.ok (outs, evs, m')) :
    ∃ recv,
      Event.invoke sel.fn.fnId d.callCount recv ∈ evs ∧
      m'.ordinal =
        (if sel.isMulti = false ∧ sel.ord.inOrder = true then m.ordinal + 1 else m.ordinal) ∧
      (∀ x y, Event.outOfOrder name x y ∈ evs ↔
        (sel.isMulti = false ∧ x = sel.ord.ordinal ∧ y = m'.ordinal ∧
          sel.ord.ordinal ≠ m'.ordinal)) := by
  obtain ⟨recv, hcall, houts, hevs, hm'⟩ := callDelegate_ok_inversion hl hng hsel hok
  have hords : m'.ordinal = stepOrdinal sel m.ordinal := by
    rw [hm']
    simp [setDelegate]
  refine ⟨recv, ?_, ?_, ?_⟩
  · rw [hevs]
    simp
  · rw [hords]
    cases sel with
    | value f o =>
      cases ho : o.inOrder <;> simp [stepOrdinal, Callable.isMulti, Callable.ord, ho]
    | multi f o =>
      simp [stepOrdinal, Callable.isMulti]
  · intro x y
    rw [hevs, hords]
    cases sel with
    | value f o =>
      by_cases hne : o.ordinal = stepOrdinal (Callable.value f o) m.ordinal
      · simp [ooEvents, Callable.isMulti, Callable.ord, hne]
      · simp [ooEvents, Callable.isMulti, Callable.ord, hne]
    | multi f o =>
      simp [ooEvents, Callable.isMulti]

theorem selected_mem {d : Delegate} {sel : Callable} (h : d.selected = some sel) :
    sel ∈ d.callables := by
  unfold Delegate.selected at h
  by_cases hlt : d.callCount < d.callables.length
  · rw [if_pos hlt, List.get?_eq_getElem?] at h
    exact List.getElem?_mem h
  · rw [if_neg hlt, List.get?_eq_getElem?] at h
    exact List.getElem?_mem h

theorem delegateByName_clear {m : Mock} {n : String} (hs : allStampsClear m) :
    (∀ c ∈ (delegateByName m n).1.callables, c.ord = (⟨false, 0⟩ : Ordered)) ∧
    allStampsClear (delegateByName m n).2 ∧
    (delegateByName m n).2.ordinal = m.ordinal ∧
    (delegateByName m n).2.inOrder = m.inOrder := by
  cases hl : lookupDelegate m n with
  | none =>
    rw [delegateByName_missing hl]
    refine ⟨?_, ?_, rfl, rfl⟩
    · intro c hc
      simp at hc
    · intro p hp c hc
      rcases List.mem_append.mp hp with h1 | h1
      · exact hs p h1 c hc
      · simp at h1
        rw [h1] at hc
        simp at hc
  | some d =>
    rw [delegateByName_found hl]
    obtain ⟨k, hk⟩ := lookup_mem hl
    exact ⟨fun c hc => hs (k, d) hk c hc, hs, rfl, rfl⟩

mutual

theorem applyOpt_clear : ∀ (o : MockOption) (m : Mock),
    noOrderedReg m.inOrder o = true → m.ordinal = 0 → allStampsClear m →
    (applyOpt o m).ordinal = 0 ∧ allStampsClear (applyOpt o m)
  | .expect name fn, m, hno, h0, hs => by
    have hin : m.inOrder = false := by
      rw [noOrderedReg] at hno
      simpa using hno
    obtain ⟨hdc, hmc, hord, hior⟩ := delegateByName_clear (n := name) hs
    rw [applyOpt]
    rw [hior, hin]
    simp only [if_false, Bool.false_eq_true]
    constructor
    · simp [setDelegate]
      omega
    · intro p hp c hc
      simp only [setDelegate] at hp
      rcases mem_updateAssoc hp with h1 | h1
      · rw [h1] at hc
        simp at hc
        rcases hc with hc | hc
        · exact hdc c hc
        · rw [hc]
          simp [Callable.ord, hior, hin, hord, h0]
      · exact hmc p h1 c hc
  | .expectMany name fn, m, hno, h0, hs => by
    have hin : m.inOrder = false := by
      rw [noOrderedReg] at hno
      simpa using hno
    obtain ⟨hdc, hmc, hord, hior⟩ := delegateByName_clear (n := name) hs
    rw [applyOpt]
    rw [hior, hin]
    simp only [if_false, Bool.false_eq_true]
    constructor
    · simp [setDelegate]
      omega
    · intro p hp c hc
      simp only [setDelegate] at hp
      rcases mem_updateAssoc hp with h1 | h1
      · rw [h1] at hc
        simp at hc
        rcases hc with hc | hc
        · exact hdc c hc
        · rw [hc]
          simp [Callable.ord, hior, hin, hord, h0]
      · exact hmc p h1 c hc
  | .orderedOpt b opts, m, hno, h0, hs => by
    rw [noOrderedReg] at hno
    rw [applyOpt]
    have hres := applyOpts_clear opts { m with inOrder := b } hno h0 hs
    exact hres

theorem applyOpts_clear : ∀ (opts : List MockOption) (m : Mock),
    noOrderedRegs m.inOrder opts = true → m.ordinal = 0 → allStampsClear m →
    (applyOpts opts m).ordinal = 0 ∧ allStampsClear (applyOpts opts m)
  | [], m, _, h0, hs => ⟨h0, hs⟩
  | o :: rest, m, hno, h0, hs => by
    rw [noOrderedRegs, Bool.and_eq_true] at hno
    obtain ⟨h1, h2⟩ := applyOpt_clear o m hno.1 h0 hs
    rw [applyOpts]
    refine applyOpts_clear rest (applyOpt o m) ?_ h1 h2
    rw [applyOpt_inOrder o m]
    exact hno.2

end

theorem stepOrdinal_clear {sel : Callable} (h : sel.ord = (⟨false, 0⟩ : Ordered))
    (ordinal : Nat) : stepOrdinal sel ordinal = ordinal := by
  cases sel with
  | value f o =>
    rw [Callable.ord] at h
    rw [stepOrdinal, h]
    simp
  | multi f o => rfl

theorem ooEvents_clear {sel : Callable} (h : sel.ord = (⟨false, 0⟩ : Ordered))
    (name : String) : ooEvents name sel 0 = [] := by
  cases sel with
  | value f o =>
    rw [Callable.ord] at h
    rw [ooEvents, h]
    simp
  | multi f o => rfl

theorem callDelegate_clear {m : Mock} {name : String} {outTypes : List GoType}
    {args : List GoVal} {outs : List GoVal} {evs : List Event} {m' : Mock}
    (h0 : m.ordinal = 0) (hs : allStampsClear m)
    (hok : callDelegate m name outTypes args = Except.ok (outs, evs, m')) :
    m'.ordinal = 0 ∧ allStampsClear m' ∧ ∀ n x y, Event.outOfOrder n x y ∉ evs := by
  cases hl : lookupDelegate m name with
  | none =>
    unfold callDelegate at hok
    rw [delegateByName_missing hl] at hok
    simp only [if_pos (And.intro Nat.le.refl rfl)] at hok
    cases hok
    refine ⟨h0, ?_, ?_⟩
    · intro p hp c hc
      rcases List.mem_append.mp hp with h1 | h1
      · exact hs p h1 c hc
      · simp at h1
        rw [h1] at hc
        simp at hc
    · intro n x y hmem
      simp at hmem
  | some d =>
    by_cases hg : d.callables.length ≤ d.callCount ∧ multiCallableB d.callables = false
    · unfold callDelegate at hok
      rw [delegateByName_found hl] at hok
      simp only [if_pos hg] at hok
      cases hok
      refine ⟨h0, hs, ?_⟩
      intro n x y hmem
      simp at hmem
    · obtain ⟨sel, hsel⟩ := selected_isSome hg
      obtain ⟨recv, hcall, houts, hevs, hm'⟩ := callDelegate_ok_inversion hl hg hsel hok
      obtain ⟨k, hk⟩ := lookup_mem hl
      have hclear : sel.ord = (⟨false, 0⟩ : Ordered) := hs (k, d) hk sel (selected_mem hsel)
      have hstep : stepOrdinal sel m.ordinal = 0 := by
        rw [stepOrdinal_clear hclear, h0]
      refine ⟨?_, ?_, ?_⟩
      · rw [hm']
        simp [setDelegate, hstep]
      · rw [hm']
        intro p hp c hc
        simp only [setDelegate] at hp
        rcases mem_updateAssoc hp with h1 | h1
        · rw [h1] at hc
          simp at hc
          exact hs (k, d) hk c hc
        · exact hs p h1 c hc
      · intro n x y hmem
        rw [hevs, hstep, ooEvents_clear hclear] at hmem
        simp at hmem

theorem runCalls_clear : ∀ (calls : List (String × List GoType × List GoVal)) (m : Mock)
    (evs : List Event) (m' : Mock),
    m.ordinal = 0 → allStampsClear m →
    runCalls m calls = Except.ok (evs, m') →
    m'.ordinal = 0 ∧ allStampsClear m' ∧ ∀ n x y, Event.outOfOrder n x y ∉ evs
  | [], m, evs, m', h0, hs, hrun => by
    rw [runCalls] at hrun
    cases hrun
    exact ⟨h0, hs, by intro n x y hmem; simp at hmem⟩
  | (nm, ts, args) :: rest, m, evs, m', h0, hs, hrun => by
    rw [runCalls] at hrun
    cases hcd : callDelegate m nm ts args with
    | error e =>
      rw [hcd] at hrun
      simp at hrun
    | ok trip =>
      obtain ⟨outs1, evs1, m1⟩ := trip
      rw [hcd] at hrun
      dsimp only at hrun
      cases hrest : runCalls m1 rest with
      | error e =>
        rw [hrest] at hrun
        simp at hrun
      | ok pr =>
        obtain ⟨evs2, m2⟩ := pr
        rw [hrest] at hrun
        dsimp only at hrun
        have hpair : (evs1 ++ evs2, m2) = (evs, m') := by
          injection hrun
        have hevs : evs1 ++ evs2 = evs := congrArg Prod.fst hpair
        have hm2 : m2 = m' := congrArg Prod.snd hpair
        subst hevs
        subst hm2
        obtain ⟨h01, hs1, hno1⟩ := callDelegate_clear h0 hs hcd
        obtain ⟨h02, hs2, hno2⟩ := runCalls_clear rest m1 evs2 m2 h01 hs1 hrest
        refine ⟨h02, hs2, ?_⟩
        intro n x y hmem
        rcases List.mem_append.mp hmem with h1 | h1
        · exact hno1 n x y h1
        · exact hno2 n x y h1

/-- C9: on a mock none of whose registrations were applied inside
`ExpectInOrder`, every Callable is stamped with a cleared in-order flag and
ordinal zero, the mock ordinal stays zero across any sequence of dispatches,
and no dispatch ever reports an out-of-order failure. -/
theorem c9_no_inorder_registration_no_ordering_failure
    (opts : List MockOption) (calls : List (String × List GoType × List GoVal))
    (evs : List Event) (m' : Mock)
    (hno : noOrderedRegs false opts = true)
    (hrun : runCalls (newMock opts) calls = Except.ok (evs, m')) :
    (newMock opts).ordinal = 0 ∧
    allStampsClear (newMock opts) ∧
    m'.ordinal = 0 ∧
    (∀ n x y, Event.outOfOrder n x y ∉ evs) := by
  have hbase := applyOpts_clear opts { delegates := [], inOrder := false, ordinal := 0 }
    hno rfl (by intro p hp c hc; simp at hp)
  have hnew0 : (newMock opts).ordinal = 0 := rfl
  have hnews : allStampsClear (newMock opts) := by
    intro p hp c hc
    exact hbase.2 p hp c hc
  obtain ⟨h02, hs2, hno2⟩ := runCalls_clear calls (newMock opts) evs m' hnew0 hnews hrun
  exact ⟨hnew0, hnews, h02, hno2⟩

theorem marshalAll_ok : ∀ (rs : List GoVal) (ts : List GoType), marshalOK rs ts = true →
    marshalAll rs ts =
      (none, List.zipWith (fun r t => if r.isZero then GoVal.zeroOf t else r) rs ts)
  | [], [], _ => rfl
  | [], t :: ts, h => Bool.noConfusion h
  | r :: rs, [], h => Bool.noConfusion h
  | r :: rs, t :: ts, h => by
    have hstep : marshalOK (r :: rs) (t :: ts) =
        ((r.isZero || r.typeOf.assignableTo t) && marshalOK rs ts) := rfl
    rw [hstep, Bool.and_eq_true] at h
    rw [marshalAll]
    by_cases hz : r.isZero
    · rw [if_pos hz, marshalAll_ok rs ts h.2]
      simp [hz]
    · have ha : r.typeOf.assignableTo t = true := by
        rcases Bool.or_eq_true_iff.mp h.1 with h1 | h1
        · exact absurd h1 hz
        · exact h1
      rw [if_neg hz, if_pos ha, marshalAll_ok rs ts h.2]
      simp [hz]

theorem marshalAll_err : ∀ (rs : List GoVal) (ts : List GoType),
    rs.length = ts.length → marshalOK rs ts = false →
    ∃ e, (marshalAll rs ts).1 = some e
  | [], [], _, h => Bool.noConfusion h
  | [], t :: ts, h, _ => by
    simp at h
  | r :: rs, [], h, _ => by
    simp at h
  | r :: rs, t :: ts, hlen, h => by
    have hstep : marshalOK (r :: rs) (t :: ts) =
        ((r.isZero || r.typeOf.assignableTo t) && marshalOK rs ts) := rfl
    rw [hstep] at h
    rw [marshalAll]
    by_cases hz : r.isZero
    · rw [if_pos hz]
      have hko : marshalOK rs ts = false := by
        simpa [hz] using h
      obtain ⟨e, he⟩ := marshalAll_err rs ts (by simpa using hlen) hko
      exact ⟨e, by simpa using he⟩
    · by_cases ha : r.typeOf.assignableTo t = true
      · rw [if_neg hz, if_pos ha]
        have hko : marshalOK rs ts = false := by
          simpa [ha] using h
        obtain ⟨e, he⟩ := marshalAll_err rs ts (by simpa using hlen) hko
        exact ⟨e, by simpa using he⟩
      · rw [if_neg hz, if_neg ha]
        exact ⟨_, rfl⟩

theorem marshalAll_length : ∀ (rs : List GoVal) (ts : List GoType),
    (marshalAll rs ts).2.length = ts.length
  | [], [] => rfl
  | [], t :: ts => by simp [marshalAll]
  | r :: rs, [] => by simp [marshalAll]
  | r :: rs, t :: ts => by
    rw [marshalAll]
    by_cases hz : r.isZero
    · rw [if_pos hz]
      simpa using marshalAll_length rs ts
    · by_cases ha : r.typeOf.assignableTo t = true
      · rw [if_neg hz, if_pos ha]
        simpa using marshalAll_length rs ts
      · rw [if_neg hz, if_neg ha]
        simp

theorem set_last_getLast? {l : List GoVal} {v : GoVal} (h : 0 < l.length) :
    (l.set (l.length - 1) v).getLast? = some v := by
  rw [List.getLast?_eq_getElem?, List.length_set]
  rw [List.getElem?_set_self (by omega)]

/-- C7: result marshaling in `doCall` fails when the number of results
differs from the number of output slots or when a non-zero result is not
assignable to its slot; the failure is reported and converted into the last
output slot when the last declared type can carry an error, and otherwise
the call panics; in the absence of a failure, every zero-valued result
leaves its slot at the default value and every assignable non-zero result is
copied into its slot. -/
theorem c7_marshal_results (results : List GoVal) (outTypes : List GoType) :
    (results.length = outTypes.length → marshalOK results outTypes = true →
      doCallMarshal results outTypes =
        ⟨[], Except.ok (List.zipWith (fun r t => if r.isZero then GoVal.zeroOf t else r)
          results outTypes)⟩) ∧
    ((results.length ≠ outTypes.length ∨ marshalOK results outTypes = false) →
      ∃ e, (doCallMarshal results outTypes).reported = [e] ∧
        (∀ t, outTypes.getLast? = some t → errConvertibleTo t = true →
          ∃ outs, (doCallMarshal results outTypes).outcome = Except.ok outs ∧
            outs.getLast? = some (GoVal.errV e)) ∧
        (∀ t, outTypes.getLast? = some t → errConvertibleTo t = false →
          (doCallMarshal results outTypes).outcome = Except.error e) ∧
        (outTypes.getLast? = none →
          ∃ pmsg, (doCallMarshal results outTypes).outcome = Except.error pmsg)) := by
  constructor
  · intro hlen hok
    unfold doCallMarshal
    rw [if_neg (by omega)]
    dsimp only
    rw [marshalAll_ok results outTypes hok]
  · intro hbad
    unfold doCallMarshal
    by_cases hlen : results.length = outTypes.length
    · have hok : marshalOK results outTypes = false := by
        rcases hbad with h | h
        · exact absurd hlen h
        · exact h
      obtain ⟨e, he⟩ := marshalAll_err results outTypes hlen hok
      rw [if_neg (by omega)]
      dsimp only
      rw [he]
      have hne : outTypes ≠ [] := by
        intro hnil
        subst hnil
        cases results with
        | nil => exact Bool.noConfusion hok
        | cons r rs => simp at hlen
      refine ⟨e, ?_, ?_, ?_, ?_⟩
      · cases hl : outTypes.getLast? with
        | none => rfl
        | some t2 =>
          dsimp only
          by_cases hc : errConvertibleTo t2 = true
          · rw [if_pos hc]
          · rw [if_neg hc]
      · intro t ht hc
        rw [ht]
        dsimp only
        rw [if_pos hc]
        refine ⟨_, rfl, ?_⟩
        have hlout : (marshalAll results outTypes).2.length = outTypes.length :=
          marshalAll_length results outTypes
        rw [← hlout]
        apply set_last_getLast?
        rw [hlout]
        cases outTypes with
        | nil => exact absurd rfl hne
        | cons a l => simp
      · intro t ht hc
        rw [ht]
        dsimp only
        rw [if_neg (by simp [hc])]
      · intro ht
        rw [ht]
        exact ⟨_, rfl⟩
    · rw [if_pos hlen]
      dsimp only
      refine ⟨"unexpected number of results: expected " ++ toString outTypes.length ++
        ", got " ++ toString results.length, ?_, ?_, ?_, ?_⟩
      · cases hl : outTypes.getLast? with
        | none => rfl
        | some t2 =>
          dsimp only
          by_cases hc : errConvertibleTo t2 = true
          · rw [if_pos hc]
          · rw [if_neg hc]
      · intro t ht hc
        rw [ht]
        dsimp only
        rw [if_pos hc]
        refine ⟨_, rfl, ?_⟩
        have hlout : (outTypes.map GoVal.zeroOf).length = outTypes.length := by simp
        rw [← hlout]
        apply set_last_getLast?
        rw [hlout]
        cases outTypes with
        | nil => simp at ht
        | cons a l => simp
      · intro t ht hc
        rw [ht]
        dsimp only
        rw [if_neg (by simp [hc])]
      · intro ht
        rw [ht]
        exact ⟨_, rfl⟩

theorem valueCall_prepend {fn : GoFunc} {inArgs recv : List GoVal}
    (hv : fn.variadic = false) (hl : fn.params.length = inArgs.length + 1)
    (hok : valueCall fn inArgs = Except.ok recv) : recv = GoVal.tbV :: inArgs := by
  unfold valueCall at hok
  rw [hv] at hok
  simp only [Bool.false_eq_true, if_false] at hok
  rw [hl] at hok
  simp only [beq_self_eq_true, if_true] at hok
  unfold callPositional at hok
  by_cases hch : checkArgs (GoVal.tbV :: inArgs) fn.params = true
  · rw [if_pos hch] at hok
    cases hok
    rfl
  · rw [if_neg hch] at hok
    cases hok

theorem valueCall_positional {fn : GoFunc} {inArgs recv : List GoVal}
    (hv : fn.variadic = false) (hl : fn.params.length = inArgs.length)
    (hok : valueCall fn inArgs = Except.ok recv) : recv = inArgs := by
  unfold valueCall at hok
  rw [hv] at hok
  simp only [Bool.false_eq_true, if_false] at hok
  rw [hl] at hok
  have hbeq : (inArgs.length == inArgs.length + 1) = false := by
    simp
  rw [hbeq] at hok
  simp only [Bool.false_eq_true, if_false] at hok
  unfold callPositional at hok
  by_cases hch : checkArgs inArgs fn.params = true
  · rw [if_pos hch] at hok
    cases hok
    rfl
  · rw [if_neg hch] at hok
    cases hok

theorem multiCall_prepend {fn : GoFunc} (count : Nat) (inArgs : List GoVal)
    (hw : wantsCallCount fn = true) :
    multiCall fn count inArgs = valueCall fn (GoVal.ccV count :: inArgs) := by
  unfold multiCall
  rw [hw]
  simp

theorem valueCall_variadic_spread {fn : GoFunc} {inArgs recv : List GoVal} {e pe : GoType}
    {tags : List Nat} (hv : fn.variadic = true)
    (hparam : fn.params.getLast? = some (GoType.tSlice pe))
    (hlast : (if fn.params.length == inArgs.length + 1 then GoVal.tbV :: inArgs
      else inArgs).getLast? = some (GoVal.sliceV e tags))
    (hok : valueCall fn inArgs = Except.ok recv) :
    recv = (if fn.params.length == inArgs.length + 1 then GoVal.tbV :: inArgs
      else inArgs).dropLast ++ tags.map (GoVal.prim e) := by
  unfold valueCall at hok
  rw [hv] at hok
  simp only [if_true] at hok
  unfold callSlice at hok
  rw [hparam] at hok
  dsimp only at hok
  by_cases hlen : ((if fn.params.length == inArgs.length + 1 then GoVal.tbV :: inArgs
      else inArgs).length == fn.params.length) = true
  · rw [hlen] at hok
    simp only [if_true] at hok
    by_cases hch : checkArgs (if fn.params.length == inArgs.length + 1 then
        GoVal.tbV :: inArgs else inArgs).dropLast fn.params.dropLast = true
    · rw [hch] at hok
      simp only [if_true] at hok
      rw [hlast] at hok
      dsimp only at hok
      by_cases he : (e == pe) = true
      · rw [he] at hok
        simp only [if_true] at hok
        cases hok
        have hepe : e = pe := by
          simpa using he
        rw [hepe]
      · rw [Bool.not_eq_true] at he
        rw [he] at hok
        simp only [Bool.false_eq_true, if_false] at hok
        cases hok
    · rw [Bool.not_eq_true] at hch
      rw [hch] at hok
      simp only [Bool.false_eq_true, if_false] at hok
      cases hok
  · rw [Bool.not_eq_true] at hlen
    rw [hlen] at hok
    simp only [Bool.false_eq_true, if_false] at hok
    cases hok

theorem checkArgs_length : ∀ (vs : List GoVal) (ts : List GoType),
    checkArgs vs ts = true → vs.length = ts.length
  | [], [], _ => rfl
  | [], t :: ts, h => Bool.noConfusion h
  | v :: vs, [], h => Bool.noConfusion h
  | v :: vs, t :: ts, h => by
    have hstep : checkArgs (v :: vs) (t :: ts) =
        (v.typeOf.assignableTo t && checkArgs vs ts) := rfl
    rw [hstep, Bool.and_eq_true] at h
    simp [checkArgs_length vs ts h.2]

theorem valueCall_arity_panic {fn : GoFunc} {inArgs : List GoVal}
    (hv : fn.variadic = false) (h1 : fn.params.length ≠ inArgs.length)
    (h2 : fn.params.length ≠ inArgs.length + 1) :
    ∃ e, valueCall fn inArgs = Except.error e := by
  unfold valueCall
  rw [hv]
  simp only [Bool.false_eq_true, if_false]
  have hbeq : (fn.params.length == inArgs.length + 1) = false := by
    simpa using h2
  rw [hbeq]
  simp only [Bool.false_eq_true, if_false]
  unfold callPositional
  have hch : checkArgs inArgs fn.params = false := by
    by_contra hcon
    have hch2 : checkArgs inArgs fn.params = true := by
      simpa using hcon
    exact h1 (checkArgs_length inArgs fn.params hch2).symm
  rw [hch]
  simp only [Bool.false_eq_true, if_false]
  exact ⟨_, rfl⟩

theorem valueCall_type_panic {fn : GoFunc} {inArgs : List GoVal}
    (hv : fn.variadic = false) (hl : fn.params.length = inArgs.length)
    (hch : checkArgs inArgs fn.params = false) :
    ∃ e, valueCall fn inArgs = Except.error e := by
  unfold valueCall
  rw [hv]
  simp only [Bool.false_eq_true, if_false]
  rw [hl]
  have hbeq : (inArgs.length == inArgs.length + 1) = false := by
    simp
  rw [hbeq]
  simp only [Bool.false_eq_true, if_false]
  unfold callPositional
  rw [hch]
  simp only [Bool.false_eq_true, if_false]
  exact ⟨_, rfl⟩

/-- C8: the invoker adapts arguments as follows: when the declared parameter
count is exactly one more than the supplied argument count the reporter is
prepended; a multi-invocation callable whose first or second declared
parameter has the call-count type gets the call count prepended, ending up
after any prepended reporter; a variadic function spreads its final supplied
slice argument; otherwise arguments apply positionally; and an arity or type
mismatch is a hard failure. -/
theorem c8_invoker_adapts_arguments :
    (∀ (fn : GoFunc) (inArgs recv : List GoVal),
        fn.variadic = false → fn.params.length = inArgs.length + 1 →
        valueCall fn inArgs = Except.ok recv → recv = GoVal.tbV :: inArgs) ∧
    (∀ (fn : GoFunc) (inArgs recv : List GoVal),
        fn.variadic = false → fn.params.length = inArgs.length →
        valueCall fn inArgs = Except.ok recv → recv = inArgs) ∧
    (∀ (fn : GoFunc) (count : Nat) (inArgs : List GoVal),
        wantsCallCount fn = true →
        multiCall fn count inArgs = valueCall fn (GoVal.ccV count :: inArgs)) ∧
    (∀ (fn : GoFunc) (count : Nat) (inArgs recv : List GoVal),
        wantsCallCount fn = true → fn.variadic = false →
        fn.params.length = inArgs.length + 2 →
        multiCall fn count inArgs = Except.ok recv →
        recv = GoVal.tbV :: GoVal.ccV count :: inArgs) ∧
    (∀ (fn : GoFunc) (inArgs recv : List GoVal) (e pe : GoType) (tags : List Nat),
        fn.variadic = true →
        fn.params.getLast? = some (GoType.tSlice pe) →
        (if fn.params.length == inArgs.length + 1 then GoVal.tbV :: inArgs
          else inArgs).getLast? = some (GoVal.sliceV e tags) →
        valueCall fn inArgs = Except.ok recv →
        recv = (if fn.params.length == inArgs.length + 1 then GoVal.tbV :: inArgs
          else inArgs).dropLast ++ tags.map (GoVal.prim e)) ∧
    (∀ (fn : GoFunc) (inArgs : List GoVal),
        fn.variadic = false → fn.params.length ≠ inArgs.length →
        fn.params.length ≠ inArgs.length + 1 →
        ∃ e, valueCall fn inArgs = Except.error e) ∧
    (∀ (fn : GoFunc) (inArgs : List GoVal),
        fn.variadic = false → fn.params.length = inArgs.length →
        checkArgs inArgs fn.params = false →
        ∃ e, valueCall fn inArgs = Except.error e) := by
  refine ⟨?_, ?_, ?_, ?_, ?_, ?_, ?_⟩
  · intro fn inArgs recv hv hl hok
    exact valueCall_prepend hv hl hok
  · intro fn inArgs recv hv hl hok
    exact valueCall_positional hv hl hok
  · intro fn count inArgs hw
    exact multiCall_prepend count inArgs hw
  · intro fn count inArgs recv hw hv hl hok
    rw [multiCall_prepend count inArgs hw] at hok
    exact valueCall_prepend hv (by simp [hl]) hok
  · intro fn inArgs recv e pe tags hv hparam hlast hok
    exact valueCall_variadic_spread hv hparam hlast hok
  · intro fn inArgs hv h1 h2
    exact valueCall_arity_panic hv h1 h2
  · intro fn inArgs hv hl hch
    exact valueCall_type_panic hv hl hch

/-- Witness for C1 at a concrete mock with two single-invocation delegates
for "Get", dispatched twice. -/
theorem c1_witness :
    (∃ c recv evsk,
      ([[Event.logCall "Get" 0 0, Event.invoke 1 0 []],
        [Event.logCall "Get" 1 0, Event.invoke 2 1 []]] : List (List Event))[1]? = some evsk ∧
      ([Callable.value ⟨1, [], false, []⟩ ⟨false, 0⟩,
        Callable.value ⟨2, [], false, []⟩ ⟨false, 0⟩] : List Callable)[1]? = some c ∧
      Event.invoke c.fn.fnId 1 recv ∈ evsk) ∧
    (∀ msg, ("Get", msg) ∉ assertExpectedCalls
      ⟨[("Get", ⟨[Callable.value ⟨1, [], false, []⟩ ⟨false, 0⟩,
        Callable.value ⟨2, [], false, []⟩ ⟨false, 0⟩], 2⟩)], false, 0⟩) := by
  have h := c1_positional_dispatch_then_satisfied
    ⟨[("Get", ⟨[Callable.value ⟨1, [], false, []⟩ ⟨false, 0⟩,
      Callable.value ⟨2, [], false, []⟩ ⟨false, 0⟩], 0⟩)], false, 0⟩
    "Get" [] [[], []]
    ⟨[Callable.value ⟨1, [], false, []⟩ ⟨false, 0⟩,
      Callable.value ⟨2, [], false, []⟩ ⟨false, 0⟩], 0⟩
    [[Event.logCall "Get" 0 0, Event.invoke 1 0 []],
     [Event.logCall "Get" 1 0, Event.invoke 2 1 []]]
    ⟨[("Get", ⟨[Callable.value ⟨1, [], false, []⟩ ⟨false, 0⟩,
      Callable.value ⟨2, [], false, []⟩ ⟨false, 0⟩], 2⟩)], false, 0⟩
    (by unfold keysNodup; decide) (by decide) rfl (by decide) rfl (by decide)
  exact ⟨h.1 1 (by decide), h.2⟩

/-- Witness for C2 at a mock with an empty queue for "Get" and declared
result types `(string, error)`. -/
theorem c2_witness :
    ∃ outs,
      callDelegate ⟨[("Get", ⟨[], 0⟩)], false, 0⟩ "Get" [GoType.tString, GoType.tErr] [] =
        Except.ok (outs, [Event.unexpectedCall "Get"], ⟨[("Get", ⟨[], 0⟩)], false, 0⟩) ∧
      (Event.unexpectedCall "Get").message = "unexpected call to " ++ "Get" ∧
      outs.length = ([GoType.tString, GoType.tErr] : List GoType).length ∧
      (∀ i, i + 1 < ([GoType.tString, GoType.tErr] : List GoType).length →
        outs[i]? = ([GoType.tString, GoType.tErr] : List GoType)[i]?.map GoVal.zeroOf) ∧
      (∀ t, ([GoType.tString, GoType.tErr] : List GoType).getLast? = some t →
        outs.getLast? = some (if t.implementsError then
          GoVal.errV ("unexpected call to " ++ "Get") else GoVal.zeroOf t)) ∧
      lookupDelegate ⟨[("Get", ⟨[], 0⟩)], false, 0⟩ "Get" = some ⟨[], 0⟩ :=
  c2_unexpected_call_synthesizes_failure ⟨[("Get", ⟨[], 0⟩)], false, 0⟩ "Get"
    [GoType.tString, GoType.tErr] [] ⟨[], 0⟩ (by decide) (by decide) (by decide)

/-- Witness for C3 at a mock whose "Load" queue is one multi-invocation
Callable already called three times, plus a freshly configured mock. -/
theorem c3_witness :
    (∃ cl recv,
        ([Callable.multi ⟨5, [], false, []⟩ ⟨false, 0⟩] : List Callable).getLast? = some cl ∧
        Event.invoke cl.fn.fnId 3 recv ∈
          [Event.logCall "Load" 3 0, Event.invoke 5 3 []] ∧
        lookupDelegate
          ⟨[("Load", ⟨[Callable.multi ⟨5, [], false, []⟩ ⟨false, 0⟩], 4⟩)], false, 0⟩ "Load" =
          some ⟨[Callable.multi ⟨5, [], false, []⟩ ⟨false, 0⟩], 3 + 1⟩) ∧
    (⟨[Callable.multi ⟨5, [], false, []⟩ ⟨false, 0⟩], 0⟩ : Delegate).callCount = 0 :=
  ⟨c3_multi_tail_reuse_and_count.1
      ⟨[("Load", ⟨[Callable.multi ⟨5, [], false, []⟩ ⟨false, 0⟩], 3⟩)], false, 0⟩
      "Load" [] [] ⟨[Callable.multi ⟨5, [], false, []⟩ ⟨false, 0⟩], 3⟩
      [] [Event.logCall "Load" 3 0, Event.invoke 5 3 []]
      ⟨[("Load", ⟨[Callable.multi ⟨5, [], false, []⟩ ⟨false, 0⟩], 4⟩)], false, 0⟩
      (by decide) (by decide) (by decide) (by decide),
   c3_multi_tail_reuse_and_count.2 [MockOption.expectMany "Load" ⟨5, [], false, []⟩]
      "Load" ⟨[Callable.multi ⟨5, [], false, []⟩ ⟨false, 0⟩], 0⟩ (by decide)⟩

/-- Witness for the amended C4 at the dispatch of "B" (a Callable without
ordering provenance) on a mock whose ordinal has reached one: the callable is
still invoked and the out-of-order report for it is present. -/
theorem c4_amended_witness :
    ∃ recv,
      Event.invoke 2 0 recv ∈
        [Event.outOfOrder "B" 0 1, Event.logCall "B" 0 1, Event.invoke 2 0 []] ∧
      (Event.outOfOrder "B" 0 1 ∈
        [Event.outOfOrder "B" 0 1, Event.logCall "B" 0 1, Event.invoke 2 0 []]) := by
  have h := c4_amended_ordering_check
    ⟨[("B", ⟨[Callable.value ⟨2, [], false, []⟩ ⟨false, 0⟩], 0⟩),
      ("A", ⟨[Callable.value ⟨1, [], false, []⟩ ⟨true, 1⟩], 1⟩)], false, 1⟩
    "B" [] [] ⟨[Callable.value ⟨2, [], false, []⟩ ⟨false, 0⟩], 0⟩
    (Callable.value ⟨2, [], false, []⟩ ⟨false, 0⟩)
    [] [Event.outOfOrder "B" 0 1, Event.logCall "B" 0 1, Event.invoke 2 0 []]
    ⟨[("B", ⟨[Callable.value ⟨2, [], false, []⟩ ⟨false, 0⟩], 1⟩),
      ("A", ⟨[Callable.value ⟨1, [], false, []⟩ ⟨true, 1⟩], 1⟩)], false, 1⟩
    (by decide) (by decide) (by decide) (by decide)
  obtain ⟨recv, hinv, hord, hiff⟩ := h
  refine ⟨recv, hinv, ?_⟩
  rw [hiff 0 1]
  refine ⟨by decide, by decide, ?_, ?_⟩
  · rw [hord]
    decide
  · rw [hord]
    decide

/-- Witness for C6 at a mock owing one call to "Get". -/
theorem c6_witness :
    (("Get", assertMsg "Get" 0) ∈ assertExpectedCalls
      ⟨[("Get", ⟨[Callable.value ⟨1, [], false, []⟩ ⟨false, 0⟩], 0⟩)], false, 0⟩ ↔
      (0 : Nat) < 1) ∧
    assertMsg "Get" 0 = "failed to make call to " ++ "Get" := by
  have h := c6_assert_reports_owed_calls
    ⟨[("Get", ⟨[Callable.value ⟨1, [], false, []⟩ ⟨false, 0⟩], 0⟩)], false, 0⟩
    "Get" ⟨[Callable.value ⟨1, [], false, []⟩ ⟨false, 0⟩], 0⟩
    (by unfold keysNodup; decide) (by decide)
  exact ⟨h.1, h.2.2.1 rfl⟩

/-- Witness for C7 at a matching single-result marshal and at an arity
mismatch whose sole output slot can carry an error. -/
theorem c7_witness :
    doCallMarshal [GoVal.prim GoType.tString 1] [GoType.tString] =
      ⟨[], Except.ok [GoVal.prim GoType.tString 1]⟩ ∧
    ∃ e, (doCallMarshal [] [GoType.tErr]).reported = [e] ∧
      ∃ outs, (doCallMarshal [] [GoType.tErr]).outcome = Except.ok outs ∧
        outs.getLast? = some (GoVal.errV e) := by
  constructor
  · have h := (c7_marshal_results [GoVal.prim GoType.tString 1] [GoType.tString]).1
      (by decide) (by decide)
    rw [h]
    decide
  · have h := (c7_marshal_results [] [GoType.tErr]).2 (by decide)
    obtain ⟨e, hrep, hconv, _, _⟩ := h
    exact ⟨e, hrep, hconv GoType.tErr (by decide) (by decide)⟩

/-- Witness for C8: reporter and call-count prepending for a concrete
multi-invocation callable of shape `(testing.TB, CallCount, string)`, the
variadic spread for a concrete callable of shape `(string, []int)`, and a
hard failure on an arity mismatch. -/
theorem c8_witness :
    (∃ recv, multiCall ⟨7, [GoType.tTB, GoType.tCC, GoType.tString], false, []⟩ 2
        [GoVal.prim GoType.tString 9] = Except.ok recv ∧
      recv = GoVal.tbV :: GoVal.ccV 2 :: [GoVal.prim GoType.tString 9]) ∧
    (∃ recv, valueCall ⟨8, [GoType.tString, GoType.tSlice GoType.tInt], true, []⟩
        [GoVal.prim GoType.tString 9, GoVal.sliceV GoType.tInt [4, 5]] = Except.ok recv ∧
      recv = [GoVal.prim GoType.tString 9, GoVal.prim GoType.tInt 4, GoVal.prim GoType.tInt 5]) ∧
    (∃ e, valueCall ⟨9, [], false, []⟩ [GoVal.prim GoType.tString 9] = Except.error e) := by
  refine ⟨?_, ?_, ?_⟩
  · have hok : multiCall ⟨7, [GoType.tTB, GoType.tCC, GoType.tString], false, []⟩ 2
        [GoVal.prim GoType.tString 9] =
        Except.ok [GoVal.tbV, GoVal.ccV 2, GoVal.prim GoType.tString 9] := by
      decide
    refine ⟨_, hok, ?_⟩
    have h := c8_invoker_adapts_arguments.2.2.2.1
      ⟨7, [GoType.tTB, GoType.tCC, GoType.tString], false, []⟩ 2
      [GoVal.prim GoType.tString 9] [GoVal.tbV, GoVal.ccV 2, GoVal.prim GoType.tString 9]
      (by decide) (by decide) (by decide) hok
    exact h
  · have hok : valueCall ⟨8, [GoType.tString, GoType.tSlice GoType.tInt], true, []⟩
        [GoVal.prim GoType.tString 9, GoVal.sliceV GoType.tInt [4, 5]] =
        Except.ok [GoVal.prim GoType.tString 9, GoVal.prim GoType.tInt 4,
          GoVal.prim GoType.tInt 5] := by
      decide
    refine ⟨_, hok, ?_⟩
    have h := c8_invoker_adapts_arguments.2.2.2.2.1
      ⟨8, [GoType.tString, GoType.tSlice GoType.tInt], true, []⟩
      [GoVal.prim GoType.tString 9, GoVal.sliceV GoType.tInt [4, 5]]
      [GoVal.prim GoType.tString 9, GoVal.prim GoType.tInt 4, GoVal.prim GoType.tInt 5]
      GoType.tInt GoType.tInt [4, 5]
      (by decide) (by decide) (by decide) hok
    rw [h]
  · exact c8_invoker_adapts_arguments.2.2.2.2.2.1 ⟨9, [], false, []⟩
      [GoVal.prim GoType.tString 9] (by decide) (by decide) (by decide)

/-- Witness for C9 at a mock configured with a plain `Expect` and an empty
`ExpectInOrder`, dispatched once. -/
theorem c9_witness :
    (newMock [MockOption.expect "Get" ⟨1, [], false, []⟩,
      MockOption.orderedOpt true []]).ordinal = 0 ∧
    (∀ n x y, Event.outOfOrder n x y ∉
      [Event.logCall "Get" 0 0, Event.invoke 1 0 []]) := by
  have h := c9_no_inorder_registration_no_ordering_failure
    [MockOption.expect "Get" ⟨1, [], false, []⟩, MockOption.orderedOpt true []]
    [("Get", [], [])]
    [Event.logCall "Get" 0 0, Event.invoke 1 0 []]
    ⟨[("Get", ⟨[Callable.value ⟨1, [], false, []⟩ ⟨false, 0⟩], 1⟩)], false, 0⟩
    (by decide) (by decide)
  exact ⟨h.1, h.2.2.2⟩

/-- Witness for C10 at a fresh `ExpectMany` registration for "Load" and one
dispatch of it. -/
theorem c10_witness :
    (∃ d1, lookupDelegate (applyOpt (MockOption.expectMany "Load" ⟨5, [], false, []⟩)
        ⟨[], false, 0⟩) "Load" = some d1 ∧
      d1.callables.length =
        (delegateByName (⟨[], false, 0⟩ : Mock) "Load").1.callables.length + 1 ∧
      d1.callables.getLast? = some (Callable.multi ⟨5, [], false, []⟩
        ⟨(delegateByName (⟨[], false, 0⟩ : Mock) "Load").2.inOrder,
         if (delegateByName (⟨[], false, 0⟩ : Mock) "Load").2.inOrder then
           (delegateByName (⟨[], false, 0⟩ : Mock) "Load").2.ordinal + 1
         else (delegateByName (⟨[], false, 0⟩ : Mock) "Load").2.ordinal⟩)) ∧
    ((∃ msg, ("Load", msg) ∈ assertExpectedCalls
        ⟨[("Load", ⟨[Callable.multi ⟨5, [], false, []⟩ ⟨false, 0⟩], 0⟩)], false, 0⟩) ↔
      (0 : Nat) = 0) ∧
    lookupDelegate ⟨[("Load", ⟨[Callable.multi ⟨5, [], false, []⟩ ⟨false, 0⟩], 1⟩)], false, 0⟩
      "Load" = some ⟨[Callable.multi ⟨5, [], false, []⟩ ⟨false, 0⟩], 0 + 1⟩ :=
  ⟨c10_expectMany_one_callable_permanent.1 ⟨[], false, 0⟩ "Load" ⟨5, [], false, []⟩,
   c10_expectMany_one_callable_permanent.2.1
     ⟨[("Load", ⟨[Callable.multi ⟨5, [], false, []⟩ ⟨false, 0⟩], 0⟩)], false, 0⟩
     "Load" ⟨[Callable.multi ⟨5, [], false, []⟩ ⟨false, 0⟩], 0⟩
     (by unfold keysNodup; decide) (by decide) (by decide),
   c10_expectMany_one_callable_permanent.2.2
     ⟨[("Load", ⟨[Callable.multi ⟨5, [], false, []⟩ ⟨false, 0⟩], 0⟩)], false, 0⟩
     "Load" [] [] ⟨[Callable.multi ⟨5, [], false, []⟩ ⟨false, 0⟩], 0⟩
     [] [Event.logCall "Load" 0 0, Event.invoke 5 0 []]
     ⟨[("Load", ⟨[Callable.multi ⟨5, [], false, []⟩ ⟨false, 0⟩], 1⟩)], false, 0⟩
     (by decide) (by decide) (by decide)⟩

end Vermock
